import Mathlib

/-!
Shallow embedding of the JudgeMental hackathon-judging core
(`src/utils.ts`, `src/components/ProjectManager.tsx`, `src/types.ts`) and
proofs about its validator, status classifier, leaderboard and judge
assignment engine.

Modelling conventions:
* JS numbers are modelled as `ℚ` (exact rational arithmetic); counts as `Nat`.
* ISO timestamp strings are modelled by their epoch value in milliseconds,
  `Option ℚ`, where `none` stands for an unset/empty timestamp (the code
  guards `if (!start || !end) return 0`).
* `Record`/`Map` objects that are only read back pointwise are modelled as
  total functions with the 0 default the code establishes by initialisation.
* The human-readable error strings of the stress test are modelled by an
  inductive type carrying the interpolated data; each constructor corresponds
  to one `errors.push(...)` site, keeping its single-letter rule code.
* `Math.random() * 20` is modelled by an explicit jitter stream
  `rand : Nat → ℚ`, consumed one value per scored candidate, and `Date.now()`
  by an explicit `now : Nat` parameter.
-/

set_option allowUnsafeReducibility true in
attribute [semireducible] Rat.mul Rat.add Rat.sub Rat.inv Rat.div Rat.ofScientific

/-- Insert `x` into `l` in front of the first element `y` with `le x y`;
this is the insertion step of a stable insertion sort. -/
def insertBy {α : Type} (le : α → α → Bool) (x : α) : List α → List α
  | [] => [x]
  | y :: ys => if le x y then x :: y :: ys else y :: insertBy le x ys

/-- Stable insertion sort by the boolean relation `le` (`le a b` = `a` may
come before `b`); models `Array.prototype.sort` with a comparator. -/
def sortBy {α : Type} (le : α → α → Bool) : List α → List α
  | [] => []
  | x :: xs => insertBy le x (sortBy le xs)

/-- Keep the first occurrence of every element, in first-occurrence order;
models the key iteration order of a JS `Map` built by repeated `set`. -/
def dedupFirst (l : List String) : List String :=
  l.foldl (fun acc x => if x ∈ acc then acc else acc ++ [x]) []

/-- Numeric value of a digit string. -/
def digitsToNat (ds : List Char) : Nat :=
  ds.foldl (fun n c => n * 10 + (c.toNat - Char.toNat (Char.ofNat 48))) 0

/-- Model of JS `parseInt` on table labels: an optional sign followed by a
longest prefix of decimal digits; `none` models `NaN`. -/
def parseIntOpt (s : String) : Option Int :=
  match s.toList with
  | [] => none
  | c :: rest =>
    if c = Char.ofNat 45 then
      let ds := rest.takeWhile Char.isDigit
      if ds.isEmpty then none else some (-(digitsToNat ds : Int))
    else
      let ds := (c :: rest).takeWhile Char.isDigit
      if ds.isEmpty then none else some (digitsToNat ds : Int)

/-- The enumerated organizer roles (`OrganizerRoleType` in `types.ts`). -/
inductive OrganizerRoleType where
  | devpost
  | clearing
  | tableAssignment
  | orientation
  | slides
deriving DecidableEq

/-- The role list in declaration order, as `Object.values(OrganizerRoleType)`. -/
def requiredRoles : List OrganizerRoleType :=
  [.devpost, .clearing, .tableAssignment, .orientation, .slides]

structure Organizer where
  name : String
  phone : String
  email : String
  role : OrganizerRoleType
deriving DecidableEq

structure Judge where
  id : String
  name : String
  phone : String
  email : String
deriving DecidableEq

structure Criterion where
  id : String
  name : String
  description : String
  scale : String
  weight : ℚ
deriving DecidableEq

structure Project where
  id : String
  name : String
  table : String
  categories : List String
  teamMembers : List String
  submitterEmail : String
  description : String
  noShow : Bool
deriving DecidableEq

/-- A score submission; the `criteria` record (criterion id → value) is
modelled as an association list in insertion order. -/
structure Score where
  id : String
  judgeId : String
  projectId : String
  criteria : List (String × ℚ)
  note : String
  timestamp : String
deriving DecidableEq

inductive AssignStatus where
  | pending
  | completed
deriving DecidableEq

structure Assignment where
  id : String
  judgeId : String
  projectId : String
  status : AssignStatus
deriving DecidableEq

inductive ReportKind where
  | noShowReport
  | busy
deriving DecidableEq

inductive ReportState where
  | pending
  | verified
  | dismissed
deriving DecidableEq

structure JudgeReport where
  id : String
  judgeId : String
  projectId : String
  kind : ReportKind
  timestamp : String
  state : ReportState
deriving DecidableEq

/-- The full event configuration (`HackathonData` in `types.ts`). Timestamps
are epoch milliseconds, `none` = unset. -/
structure HackathonData where
  eventName : String
  estimatedCheckIns : Nat
  softDeadline : Option ℚ
  hardDeadline : Option ℚ
  judgeArrival : Option ℚ
  judgeOrientation : Option ℚ
  judgingStart : Option ℚ
  judgingEnd : Option ℚ
  judgingDeliberations : Option ℚ
  closingCeremony : Option ℚ
  venueHardCutoff : Option ℚ
  tableCount : Nat
  judgesPerProject : Nat
  judges : List Judge
  organizers : List Organizer
  sponsorCategories : List String
  organizerCategories : List String
  criteria : List Criterion
  actualCheckIns : Option Nat
  confirmedJudges : Option Nat
  venueChangesNote : String
  actualProjects : Option Nat
  demoTimeMinutes : Option Nat
  actualJudgesShowed : Option Nat
  projects : List Project
  scores : List Score
  assignments : List Assignment
  reports : List JudgeReport
  tableMapImages : List String

/-- Minutes between two timestamps (`getDiffInMinutes` in `utils.ts`):
`(d2 - d1) / (1000 * 60)`, or `0` when either endpoint is unset. -/
def getDiffInMinutes (a b : Option ℚ) : ℚ :=
  match a, b with
  | some x, some y => (y - x) / (1000 * 60)
  | _, _ => 0

/-- One structured error per `errors.push` site of `runStressTest`, keeping
the single-letter rule code and the interpolated quantities. -/
inductive StressError where
  | errA (timePerProject : ℚ)
  | errB (tableCount projectedProjects : Nat)
  | errC (mins : ℚ)
  | errD (mins : ℚ)
  | errE (mins : ℚ)
  | errF (mins : ℚ)
  | errG (tableCount requiredTables : Nat)
  | errH (mins : ℚ)
  | errI (mins : ℚ)
  | errJ (mins : ℚ)
  | errK (n : Nat)
  | errLMissing (role : OrganizerRoleType)
  | errLDup (phone : String)
deriving DecidableEq

def isErrA : StressError → Bool
  | .errA _ => true
  | _ => false

def isErrB : StressError → Bool
  | .errB _ _ => true
  | _ => false

def isErrC : StressError → Bool
  | .errC _ => true
  | _ => false

def isErrD : StressError → Bool
  | .errD _ => true
  | _ => false

def isErrE : StressError → Bool
  | .errE _ => true
  | _ => false

def isErrF : StressError → Bool
  | .errF _ => true
  | _ => false

def isErrG : StressError → Bool
  | .errG _ _ => true
  | _ => false

def isErrH : StressError → Bool
  | .errH _ => true
  | _ => false

def isErrI : StressError → Bool
  | .errI _ => true
  | _ => false

def isErrJ : StressError → Bool
  | .errJ _ => true
  | _ => false

def isErrK : StressError → Bool
  | .errK _ => true
  | _ => false

/-- Both push sites of rule L (missing role / duplicate phone). -/
def isErrL : StressError → Bool
  | .errLMissing _ => true
  | .errLDup _ => true
  | _ => false

structure StressMetrics where
  effectiveJudges : Nat
  projectedProjects : Nat
  timePerProject : ℚ
  totalJudgingTime : ℚ
  rounds : Nat
deriving DecidableEq

structure StressTestResult where
  passed : Bool
  errors : List StressError
  metrics : StressMetrics

/-- Judge head-count reduced by the fixed 20 percent no-show discount:
`Math.ceil(rawJudges * 0.8)`. -/
def effectiveJudges (data : HackathonData) : Nat :=
  (4 * data.judges.length + 4) / 5

/-- Projected project count: `Math.ceil(estimatedCheckIns / 5)`. -/
def projectedProjects (data : HackathonData) : Nat :=
  (data.estimatedCheckIns + 4) / 5

def totalJudgingTime (data : HackathonData) : ℚ :=
  getDiffInMinutes data.judgingStart data.judgingEnd

/-- Capacity balance `(effectiveJudges * totalJudgingTime) /
(projectedProjects * judgesPerProject)`, `0` when a divisor is zero. -/
def timePerProject (data : HackathonData) : ℚ :=
  if 0 < projectedProjects data ∧ 0 < data.judgesPerProject then
    ((effectiveJudges data : ℚ) * totalJudgingTime data)
      / ((projectedProjects data : ℚ) * (data.judgesPerProject : ℚ))
  else 0

/-- Required spaced tables for rule G: `Math.ceil(projectedProjects * 1.3)`. -/
def requiredTables (data : HackathonData) : Nat :=
  (13 * projectedProjects data + 9) / 10

def arrivalToOrientation (data : HackathonData) : ℚ :=
  getDiffInMinutes data.judgeArrival data.judgeOrientation

def orientationToStart (data : HackathonData) : ℚ :=
  getDiffInMinutes data.judgeOrientation data.judgingStart

def hardDeadlineToStart (data : HackathonData) : ℚ :=
  getDiffInMinutes data.hardDeadline data.judgingStart

def softToHard (data : HackathonData) : ℚ :=
  getDiffInMinutes data.softDeadline data.hardDeadline

def judgeEndToClosing (data : HackathonData) : ℚ :=
  getDiffInMinutes data.judgingEnd data.closingCeremony

def closingToVenue (data : HackathonData) : ℚ :=
  getDiffInMinutes data.closingCeremony data.venueHardCutoff

/-- Rule A push site: calculated time per project below 5 minutes. -/
def errsA (data : HackathonData) : List StressError :=
  if timePerProject data < 5 then [StressError.errA (timePerProject data)] else []

/-- Rule B push site: more projected projects than table spots. -/
def errsB (data : HackathonData) : List StressError :=
  if data.tableCount < projectedProjects data then
    [StressError.errB data.tableCount (projectedProjects data)] else []

/-- Rule C push site: under 30 minutes from judge arrival to orientation. -/
def errsC (data : HackathonData) : List StressError :=
  if arrivalToOrientation data < 30 then [StressError.errC (arrivalToOrientation data)] else []

/-- Rule D push site: under 60 minutes from orientation to judging start. -/
def errsD (data : HackathonData) : List StressError :=
  if orientationToStart data < 60 then [StressError.errD (orientationToStart data)] else []

/-- Rule E push site: the outer margin guard `Math.abs(gap - 60) > 5` wraps
the inner `gap < 60` check. -/
def errsE (data : HackathonData) : List StressError :=
  if 5 < |hardDeadlineToStart data - 60| ∧ hardDeadlineToStart data < 60 then
    [StressError.errE (hardDeadlineToStart data)] else []

/-- Rule F push site: judging period under 90 minutes. -/
def errsF (data : HackathonData) : List StressError :=
  if totalJudgingTime data < 90 then [StressError.errF (totalJudgingTime data)] else []

/-- Rule G push site: fewer tables than `ceil(1.3 * projectedProjects)`. -/
def errsG (data : HackathonData) : List StressError :=
  if data.tableCount < requiredTables data then
    [StressError.errG data.tableCount (requiredTables data)] else []

/-- Rule H push site: soft deadline under 60 minutes before the hard one. -/
def errsH (data : HackathonData) : List StressError :=
  if softToHard data < 60 then [StressError.errH (softToHard data)] else []

/-- Rule I push site: under 60 minutes from judging end to closing. -/
def errsI (data : HackathonData) : List StressError :=
  if judgeEndToClosing data < 60 then [StressError.errI (judgeEndToClosing data)] else []

/-- Rule J push site: under 60 minutes from closing to venue cutoff. -/
def errsJ (data : HackathonData) : List StressError :=
  if closingToVenue data < 60 then [StressError.errJ (closingToVenue data)] else []

/-- Rule K push site: fewer than 2 judges per project. -/
def errsK (data : HackathonData) : List StressError :=
  if data.judgesPerProject < 2 then [StressError.errK data.judgesPerProject] else []

/-- Rule L missing-role loop, in the enumeration order of the roles. -/
def errsLMissing (data : HackathonData) : List StressError :=
  requiredRoles.filterMap fun role =>
    if role ∈ data.organizers.map Organizer.role then none
    else some (StressError.errLMissing role)

/-- Rule L duplicate loop over the phone-keyed map: one error per phone with
more than one organizer entry, in first-occurrence order. -/
def errsLDup (data : HackathonData) : List StressError :=
  (dedupFirst (data.organizers.map Organizer.phone)).filterMap fun ph =>
    if 1 < (data.organizers.filter (fun o => o.phone == ph)).length then
      some (StressError.errLDup ph) else none

/-- All errors of the validator, concatenated in push order A..K, then the
two loops of rule L. -/
def stressErrors (data : HackathonData) : List StressError :=
  errsA data ++ errsB data ++ errsC data ++ errsD data ++ errsE data ++ errsF data
    ++ errsG data ++ errsH data ++ errsI data ++ errsJ data ++ errsK data
    ++ errsLMissing data ++ errsLDup data

/-- The feasibility validator (`runStressTest` in `utils.ts`). -/
def runStressTest (data : HackathonData) : StressTestResult :=
  { passed := (stressErrors data).isEmpty
    errors := stressErrors data
    metrics :=
      { effectiveJudges := effectiveJudges data
        projectedProjects := projectedProjects data
        timePerProject := timePerProject data
        totalJudgingTime := totalJudgingTime data
        rounds := data.judgesPerProject } }

inductive ProjectStatus where
  | red
  | yellow
  | green
  | purple
deriving DecidableEq

/-- The status classifier (`getProjectStatus` in `utils.ts`). The required
round count is an `Int` because the caller passes an arbitrary JS number. -/
def getProjectStatus (project : Project) (scores : List Score) (requiredRounds : Int) :
    ProjectStatus :=
  if project.noShow then .purple
  else
    let timesJudged := (scores.filter (fun s => s.projectId == project.id)).length
    if timesJudged == 0 then .red
    else if (timesJudged : Int) < requiredRounds then .yellow
    else .green

structure ProjectScoreStats where
  projectId : String
  projectName : String
  table : String
  timesJudged : Nat
  rankPoints : ℚ
  rawAvg : ℚ
deriving DecidableEq

/-- Step 1 of `calculateLeaderboard`: ids of the criteria included in the
raw-total computation (the `includedCriteriaIds` set, as a list whose
membership coincides with the JS `Set`). -/
def includedCriteriaIds (criteria : List Criterion) (organizerCategories : List String)
    (filterCategory : Option String) : List String :=
  criteria.filterMap fun c =>
    let isCategoryCriterion := organizerCategories.contains c.name
    match filterCategory with
    | none => if !isCategoryCriterion then some c.id else none
    | some fc => if !isCategoryCriterion || c.name == fc then some c.id else none

/-- Step 2 of `calculateLeaderboard`: the in-scope projects. -/
def relevantProjects (projects : List Project) (filterCategory : Option String) :
    List Project :=
  let base := projects.filter fun p => !p.noShow
  match filterCategory with
  | none => base
  | some fc => base.filter fun p => p.categories.contains fc

/-- Weight lookup `criteria.find(c => c.id === cId)?.weight ?? 1`. -/
def weightOf (criteria : List Criterion) (cId : String) : ℚ :=
  match criteria.find? (fun c => c.id == cId) with
  | some c => c.weight
  | none => 1

/-- Weighted raw total of one score record: the `rawTotal` accumulation over
`Object.entries(s.criteria)`, restricted to included criteria. -/
def rawTotalOf (criteria : List Criterion) (included : List String) :
    List (String × ℚ) → ℚ
  | [] => 0
  | e :: rest =>
    (if included.contains e.1 then e.2 * weightOf criteria e.1 else 0)
      + rawTotalOf criteria included rest

/-- Append an entry to the group of key `k`, creating the group at the end on
first sight; models insertion into a JS record keyed by `k`. -/
def addToGroup {β : Type} : List (String × List β) → String → β → List (String × List β)
  | [], k, e => [(k, [e])]
  | g :: rest, k, e =>
    if g.1 == k then (g.1, g.2 ++ [e]) :: rest else g :: addToGroup rest k e

/-- Step 3 of `calculateLeaderboard`: group the raw totals of the relevant
scores by judge (`judgeScores`), in judge first-appearance order. -/
def groupScores (relevant : List Project) (criteria : List Criterion)
    (included : List String) (scores : List Score) : List (String × List (String × ℚ)) :=
  scores.foldl
    (fun acc s =>
      if relevant.any (fun p => p.id == s.projectId) then
        addToGroup acc s.judgeId (s.projectId, rawTotalOf criteria included s.criteria)
      else acc)
    []

/-- Mutable per-project accumulators of `calculateLeaderboard`, with the 0
defaults established by the initialisation loop. -/
structure LbStats where
  pts : String → ℚ
  raws : String → ℚ
  counts : String → Nat

/-- The fixed competition-ranking points table: 1→5, 2→4, 3→3, 4→2, 5→1,
otherwise 0. -/
def pointsForRank (rank : Nat) : ℚ :=
  if rank == 1 then 5
  else if rank == 2 then 4
  else if rank == 3 then 3
  else if rank == 4 then 2
  else if rank == 5 then 1
  else 0

/-- Points a judge gives to an item of their sorted score list: the rank is
one more than the index of the first entry with the same raw score
(`jScores.findIndex(s => s.rawScore === item.rawScore) + 1`). -/
def judgePoints (sorted : List (String × ℚ)) (it : String × ℚ) : ℚ :=
  pointsForRank (sorted.findIdx (fun s => s.2 == it.2) + 1)

/-- Loop body of step 4 of `calculateLeaderboard`: fold one item of a sorted
per-judge score list into the accumulators (raw stats always, rank points
only when positive). -/
def lbStep (sorted : List (String × ℚ)) (st : LbStats) (it : String × ℚ) : LbStats :=
  let points := judgePoints sorted it
  { pts := fun x => if x == it.1 then
      (if 0 < points then st.pts x + points else st.pts x) else st.pts x
    raws := fun x => if x == it.1 then st.raws x + it.2 else st.raws x
    counts := fun x => if x == it.1 then st.counts x + 1 else st.counts x }

/-- Step 4 of `calculateLeaderboard` for one judge: sort the raw totals
descending and fold their contributions into the accumulators. -/
def applyJudge (stats : LbStats) (entries : List (String × ℚ)) : LbStats :=
  let sorted := sortBy (fun a b => decide (b.2 ≤ a.2)) entries
  sorted.foldl (lbStep sorted) stats

/-- Sort order of the final leaderboard rows: rank points descending, ties by
raw average descending. -/
def rowLe (a b : ProjectScoreStats) : Bool :=
  if a.rankPoints == b.rankPoints then decide (b.rawAvg ≤ a.rawAvg)
  else decide (b.rankPoints ≤ a.rankPoints)

/-- Accumulated per-project stats over all judges (steps 3 and 4 of
`calculateLeaderboard`). -/
def lbStatsOf (projects : List Project) (scores : List Score) (criteria : List Criterion)
    (organizerCategories : List String) (filterCategory : Option String) : LbStats :=
  let included := includedCriteriaIds criteria organizerCategories filterCategory
  let relevant := relevantProjects projects filterCategory
  (groupScores relevant criteria included scores).foldl (fun st g => applyJudge st g.2)
    { pts := fun _ => 0, raws := fun _ => 0, counts := fun _ => 0 }

/-- Step 5 of `calculateLeaderboard`: one result row per relevant project. -/
def lbRows (projects : List Project) (scores : List Score) (criteria : List Criterion)
    (organizerCategories : List String) (filterCategory : Option String) :
    List ProjectScoreStats :=
  let stats := lbStatsOf projects scores criteria organizerCategories filterCategory
  (relevantProjects projects filterCategory).map fun p =>
    let timesJudged := stats.counts p.id
    { projectId := p.id
      projectName := p.name
      table := p.table
      timesJudged := timesJudged
      rankPoints := stats.pts p.id
      rawAvg := if 0 < timesJudged then stats.raws p.id / (timesJudged : ℚ) else 0 }

/-- The ranking engine (`calculateLeaderboard` in `utils.ts`): the rows of
step 5 under the final two-key descending sort. -/
def calculateLeaderboard (projects : List Project) (scores : List Score)
    (criteria : List Criterion) (organizerCategories : List String)
    (filterCategory : Option String) : List ProjectScoreStats :=
  sortBy rowLe (lbRows projects scores criteria organizerCategories filterCategory)

/-- Assignment id `assign-...-k` (`Date.now()` passed in as `now`). -/
def mkAssignId (now k : Nat) : String :=
  "assign-" ++ toString now ++ "-" ++ toString k

/-- Numeric table of a project, `parseInt(project.table) || 0`. -/
def tableNumOf (p : Project) : Int :=
  (parseIntOpt p.table).getD 0

/-- Comparator order for the active-project sort: numeric by table when both
labels parse, else lexicographic on the label. -/
def projLe (a b : Project) : Bool :=
  match parseIntOpt a.table, parseIntOpt b.table with
  | some tA, some tB => decide (tA ≤ tB)
  | _, _ => decide (a.table ≤ b.table)

/-- Mutable state of `generateAssignments`: the assignment list built so far,
the per-judge load and last-table trackers, and the position in the random
jitter stream. -/
structure AState where
  asg : List Assignment
  load : String → Nat
  lastT : String → Int
  ctr : Nat

/-- Judges not yet assigned to project `pid`. -/
def candidatesFor (judges : List Judge) (pid : String) (asg : List Assignment) :
    List Judge :=
  judges.filter fun j => !(asg.any fun a => a.judgeId == j.id && a.projectId == pid)

/-- Deterministic part of a candidate score: load-balancing penalty plus the
proximity bonus of the 10-table rule. -/
def candScore (st : AState) (tableNum : Int) (j : Judge) : ℚ :=
  let base : ℚ := -(50 * (st.load j.id : ℚ))
  let dist : Nat := (tableNum - st.lastT j.id).natAbs
  let prox : ℚ :=
    if dist ≤ 10 then 100
    else if st.load j.id == 0 then 50
    else -(dist : ℚ)
  base + prox

/-- Score every candidate, consuming one jitter value per candidate starting
at stream position `k`. -/
def scoreCands (st : AState) (tableNum : Int) (rand : Nat → ℚ) :
    List Judge → Nat → List (Judge × ℚ)
  | [], _ => []
  | j :: js, k => (j, candScore st tableNum j + rand k) :: scoreCands st tableNum rand js (k + 1)

/-- Sort the scored candidates by score descending and return the winner, if
any (`scoredCandidates.sort(...)` followed by the length check). -/
def pickBest (scored : List (Judge × ℚ)) : Option Judge :=
  match sortBy (fun a b => decide (b.2 ≤ a.2)) scored with
  | [] => none
  | best :: _ => some best.1

/-- One round of assignment for one project: filter candidates, score them,
sort by score descending and, when any candidate exists, record the best. -/
def assignStep (judges : List Judge) (rand : Nat → ℚ) (now : Nat) (pid : String)
    (tableNum : Int) (st : AState) : AState :=
  let cands := candidatesFor judges pid st.asg
  match pickBest (scoreCands st tableNum rand cands st.ctr) with
  | none => { st with ctr := st.ctr + cands.length }
  | some best =>
    { asg := st.asg ++
        [{ id := mkAssignId now st.asg.length
           judgeId := best.id
           projectId := pid
           status := .pending }]
      load := fun x => if x == best.id then st.load x + 1 else st.load x
      lastT := fun x => if x == best.id then tableNum else st.lastT x
      ctr := st.ctr + cands.length }

/-- The inner `for (r = 0; r < assignRounds; r++)` loop for one project. -/
def assignRounds (judges : List Judge) (rand : Nat → ℚ) (now : Nat) (pid : String)
    (tableNum : Int) : Nat → AState → AState
  | 0, st => st
  | n + 1, st =>
    assignRounds judges rand now pid tableNum n (assignStep judges rand now pid tableNum st)

/-- The assignment engine (`generateAssignments` in `ProjectManager.tsx`).
Returns the generated assignment list; the no-judge and no-active-project
alerts return with nothing generated. -/
def generateAssignments (judges : List Judge) (projects : List Project) (rounds : Nat)
    (rand : Nat → ℚ) (now : Nat) : List Assignment :=
  if judges.isEmpty then []
  else if (projects.filter fun p => !p.noShow).isEmpty then []
  else
    let activeProjects := sortBy projLe (projects.filter fun p => !p.noShow)
    (activeProjects.foldl
        (fun st p => assignRounds judges rand now p.id (tableNumOf p) rounds st)
        { asg := [], load := fun _ => 0, lastT := fun _ => -999, ctr := 0 }).asg

/-- Assignments of a plan that belong to project id `pid`. -/
def projAssignments (l : List Assignment) (pid : String) : List Assignment :=
  l.filter fun a => a.projectId == pid

/-- Judge ids already assigned to project id `pid`. -/
def projJudgeIds (l : List Assignment) (pid : String) : List String :=
  (projAssignments l pid).map Assignment.judgeId

/-- The (judgeId, projectId) key of every assignment of a plan. -/
def pairsOf (l : List Assignment) : List (String × String) :=
  l.map fun a => (a.judgeId, a.projectId)

/-- Neutral event configuration used as the base of concrete test data. -/
def baseData : HackathonData where
  eventName := ""
  estimatedCheckIns := 0
  softDeadline := none
  hardDeadline := none
  judgeArrival := none
  judgeOrientation := none
  judgingStart := none
  judgingEnd := none
  judgingDeliberations := none
  closingCeremony := none
  venueHardCutoff := none
  tableCount := 0
  judgesPerProject := 0
  judges := []
  organizers := []
  sponsorCategories := []
  organizerCategories := []
  criteria := []
  actualCheckIns := none
  confirmedJudges := none
  venueChangesNote := ""
  actualProjects := none
  demoTimeMinutes := none
  actualJudgesShowed := none
  projects := []
  scores := []
  assignments := []
  reports := []
  tableMapImages := []

/-- Configuration whose hard deadline sits 57 minutes before judging start. -/
def c2data : HackathonData :=
  { baseData with hardDeadline := some 0, judgingStart := some (57 * 60000) }

/-- Six organizers with pairwise distinct phones covering all five roles, the
Devpost role twice. -/
def c9data : HackathonData :=
  { baseData with organizers :=
      [ { name := "o1", phone := "100", email := "", role := .devpost }
      , { name := "o2", phone := "200", email := "", role := .devpost }
      , { name := "o3", phone := "300", email := "", role := .clearing }
      , { name := "o4", phone := "400", email := "", role := .tableAssignment }
      , { name := "o5", phone := "500", email := "", role := .orientation }
      , { name := "o6", phone := "600", email := "", role := .slides } ] }

def c3judge : Judge :=
  { id := "j1", name := "Judge 1", phone := "", email := "" }

def c3project : Project :=
  { id := "p1", name := "Proj 1", table := "1", categories := ["General"]
    teamMembers := [], submitterEmail := "", description := "", noShow := false }

/-- A flagged no-show project sharing the roster with `c3project`. -/
def c8noshow : Project :=
  { id := "p2", name := "Proj 2", table := "2", categories := ["General"]
    teamMembers := [], submitterEmail := "", description := "", noShow := true }

def c6crit : Criterion :=
  { id := "c1", name := "Quality", description := "", scale := "1-3", weight := 1 }

def c6A : Project :=
  { id := "A", name := "Alpha", table := "1", categories := ["General"]
    teamMembers := [], submitterEmail := "", description := "", noShow := false }

def c6B : Project :=
  { id := "B", name := "Beta", table := "2", categories := ["General"]
    teamMembers := [], submitterEmail := "", description := "", noShow := false }

def c6C : Project :=
  { id := "C", name := "Gamma", table := "3", categories := ["General"]
    teamMembers := [], submitterEmail := "", description := "", noShow := false }

/-- Judge J scores projects A, B, C with raw totals 9, 6 and 6. -/
def c6scores : List Score :=
  [ { id := "s1", judgeId := "J", projectId := "A", criteria := [("c1", 9)]
      note := "", timestamp := "" }
  , { id := "s2", judgeId := "J", projectId := "B", criteria := [("c1", 6)]
      note := "", timestamp := "" }
  , { id := "s3", judgeId := "J", projectId := "C", criteria := [("c1", 6)]
      note := "", timestamp := "" } ]

def susCrit : Criterion :=
  { id := "c-sus", name := "Sustainability", description := "", scale := "1-3", weight := 2 }

def genCrit : Criterion :=
  { id := "c-gen", name := "Quality", description := "", scale := "1-3", weight := 1 }

theorem insertBy_perm {α : Type} (le : α → α → Bool) (x : α) (l : List α) :
    (insertBy le x l).Perm (x :: l) := by
  induction l with
  | nil => simp [insertBy]
  | cons y ys ih =>
    simp only [insertBy]
    split
    · exact List.Perm.refl _
    · exact (ih.cons y).trans (List.Perm.swap x y ys)

theorem sortBy_perm {α : Type} (le : α → α → Bool) (l : List α) :
    (sortBy le l).Perm l := by
  induction l with
  | nil => simp [sortBy]
  | cons x xs ih => exact (insertBy_perm le x (sortBy le xs)).trans (ih.cons x)

theorem mem_dedupFirst_aux (x : String) :
    ∀ (l acc : List String),
      x ∈ l.foldl (fun acc y => if y ∈ acc then acc else acc ++ [y]) acc ↔
        x ∈ acc ∨ x ∈ l := by
  intro l
  induction l with
  | nil => simp
  | cons y ys ih =>
    intro acc
    simp only [List.foldl_cons, ih, List.mem_cons]
    constructor
    · rintro (hx | hx)
      · split at hx
        · exact Or.inl hx
        · rcases List.mem_append.mp hx with h | h
          · exact Or.inl h
          · simp at h
            exact Or.inr (Or.inl h)
      · exact Or.inr (Or.inr hx)
    · rintro (hx | hx | hx)
      · left
        split
        · exact hx
        · exact List.mem_append.mpr (Or.inl hx)
      · left
        subst hx
        split
        · assumption
        · simp
      · exact Or.inr hx

theorem mem_dedupFirst (x : String) (l : List String) :
    x ∈ dedupFirst l ↔ x ∈ l := by
  simpa using mem_dedupFirst_aux x l []

theorem mem_errsA (data : HackathonData) (e : StressError) :
    e ∈ errsA data ↔ timePerProject data < 5 ∧ e = .errA (timePerProject data) := by
  unfold errsA
  split <;> simp_all

theorem mem_errsB (data : HackathonData) (e : StressError) :
    e ∈ errsB data ↔ data.tableCount < projectedProjects data ∧
      e = .errB data.tableCount (projectedProjects data) := by
  unfold errsB
  split <;> simp_all

theorem mem_errsC (data : HackathonData) (e : StressError) :
    e ∈ errsC data ↔ arrivalToOrientation data < 30 ∧ e = .errC (arrivalToOrientation data) := by
  unfold errsC
  split <;> simp_all

theorem mem_errsD (data : HackathonData) (e : StressError) :
    e ∈ errsD data ↔ orientationToStart data < 60 ∧ e = .errD (orientationToStart data) := by
  unfold errsD
  split <;> simp_all

theorem mem_errsE (data : HackathonData) (e : StressError) :
    e ∈ errsE data ↔ (5 < |hardDeadlineToStart data - 60| ∧ hardDeadlineToStart data < 60) ∧
      e = .errE (hardDeadlineToStart data) := by
  unfold errsE
  split <;> simp_all

theorem mem_errsF (data : HackathonData) (e : StressError) :
    e ∈ errsF data ↔ totalJudgingTime data < 90 ∧ e = .errF (totalJudgingTime data) := by
  unfold errsF
  split <;> simp_all

theorem mem_errsG (data : HackathonData) (e : StressError) :
    e ∈ errsG data ↔ data.tableCount < requiredTables data ∧
      e = .errG data.tableCount (requiredTables data) := by
  unfold errsG
  split <;> simp_all

theorem mem_errsH (data : HackathonData) (e : StressError) :
    e ∈ errsH data ↔ softToHard data < 60 ∧ e = .errH (softToHard data) := by
  unfold errsH
  split <;> simp_all

theorem mem_errsI (data : HackathonData) (e : StressError) :
    e ∈ errsI data ↔ judgeEndToClosing data < 60 ∧ e = .errI (judgeEndToClosing data) := by
  unfold errsI
  split <;> simp_all

theorem mem_errsJ (data : HackathonData) (e : StressError) :
    e ∈ errsJ data ↔ closingToVenue data < 60 ∧ e = .errJ (closingToVenue data) := by
  unfold errsJ
  split <;> simp_all

theorem mem_errsK (data : HackathonData) (e : StressError) :
    e ∈ errsK data ↔ data.judgesPerProject < 2 ∧ e = .errK data.judgesPerProject := by
  unfold errsK
  split <;> simp_all

theorem mem_errsLMissing (data : HackathonData) (e : StressError) :
    e ∈ errsLMissing data ↔ ∃ role, role ∈ requiredRoles ∧
      role ∉ data.organizers.map Organizer.role ∧ e = .errLMissing role := by
  unfold errsLMissing
  rw [List.mem_filterMap]
  constructor
  · rintro ⟨role, hrole, hf⟩
    refine ⟨role, hrole, ?_, ?_⟩ <;> split at hf <;> simp_all
  · rintro ⟨role, hrole, hmem, rfl⟩
    refine ⟨role, hrole, ?_⟩
    simp [hmem]

theorem mem_errsLDup (data : HackathonData) (e : StressError) :
    e ∈ errsLDup data ↔ ∃ ph,
      1 < (data.organizers.filter (fun o => o.phone == ph)).length ∧
      e = .errLDup ph := by
  unfold errsLDup
  rw [List.mem_filterMap]
  constructor
  · rintro ⟨ph, hph, hf⟩
    refine ⟨ph, ?_, ?_⟩ <;> split at hf <;> simp_all
  · rintro ⟨ph, hcnt, rfl⟩
    refine ⟨ph, ?_, ?_⟩
    · rw [mem_dedupFirst]
      have hne : (data.organizers.filter (fun o => o.phone == ph)) ≠ [] := by
        intro hnil
        rw [hnil] at hcnt
        simp at hcnt
      rcases List.exists_mem_of_ne_nil _ hne with ⟨o, ho⟩
      rcases List.mem_filter.mp ho with ⟨hmem, hpho⟩
      exact List.mem_map.mpr ⟨o, hmem, by simpa using hpho⟩
    · simp [hcnt]

theorem mem_stressErrors (data : HackathonData) (e : StressError) :
    e ∈ stressErrors data ↔
      e ∈ errsA data ∨ e ∈ errsB data ∨ e ∈ errsC data ∨ e ∈ errsD data ∨
      e ∈ errsE data ∨ e ∈ errsF data ∨ e ∈ errsG data ∨ e ∈ errsH data ∨
      e ∈ errsI data ∨ e ∈ errsJ data ∨ e ∈ errsK data ∨
      e ∈ errsLMissing data ∨ e ∈ errsLDup data := by
  simp [stressErrors, List.mem_append, or_assoc]

theorem errE_mem_stress_iff (data : HackathonData) (m : ℚ) :
    StressError.errE m ∈ stressErrors data ↔
      (5 < |hardDeadlineToStart data - 60| ∧ hardDeadlineToStart data < 60) ∧
      m = hardDeadlineToStart data := by
  rw [mem_stressErrors]
  simp [mem_errsA, mem_errsB, mem_errsC, mem_errsD, mem_errsE, mem_errsF, mem_errsG,
    mem_errsH, mem_errsI, mem_errsJ, mem_errsK, mem_errsLMissing, mem_errsLDup]

/-- Claim C2 counterexample: in the configuration `c2data` the hard deadline
sits 57 minutes before judging start, strictly below 60, yet the validator
reports no rule E error, refuting the claimed if-and-only-if condition. -/
theorem c2_counterexample :
    ¬ ((∃ m, StressError.errE m ∈ (runStressTest c2data).errors) ↔
        hardDeadlineToStart c2data < 60) := by
  intro h
  have h57 : hardDeadlineToStart c2data < 60 := by decide
  rcases h.mpr h57 with ⟨m, hm⟩
  have hany : (runStressTest c2data).errors.any isErrE = false := by decide
  exact absurd rfl (List.any_eq_false.mp hany _ hm)

/-- Claim C2 (amended): the error list of `runStressTest` contains the rule E
error if and only if `minutesBetween(hardDeadline, judgingStart)` is strictly
below 55 minutes (the code allows a 5-minute margin under the 60-minute
target); in particular a gap of 60 or more is never flagged by rule E. -/
theorem c2_ruleE_iff (data : HackathonData) :
    (∃ m, StressError.errE m ∈ (runStressTest data).errors) ↔
      getDiffInMinutes data.hardDeadline data.judgingStart < 55 := by
  have hg : getDiffInMinutes data.hardDeadline data.judgingStart = hardDeadlineToStart data := rfl
  rw [hg]
  constructor
  · rintro ⟨m, hm⟩
    have hm2 : StressError.errE m ∈ stressErrors data := hm
    rcases (errE_mem_stress_iff data m).mp hm2 with ⟨⟨habs, hlt⟩, rfl⟩
    rcases lt_abs.mp habs with h | h
    · linarith
    · linarith
  · intro h
    refine ⟨hardDeadlineToStart data, ?_⟩
    show StressError.errE _ ∈ stressErrors data
    refine (errE_mem_stress_iff data _).mpr ⟨⟨?_, ?_⟩, rfl⟩
    · rw [lt_abs]
      right
      linarith
    · linarith

/-- Claim C9 counterexample: in `c9data` every role is filled and all phones
are distinct, but the Devpost role is filled by two organizers, so the claimed
condition (some role not filled by exactly one organizer) holds while the
validator reports no rule L error. -/
theorem c9_counterexample :
    ¬ (((runStressTest c9data).errors.any isErrL = true) ↔
        ((∃ role ∈ requiredRoles,
            (c9data.organizers.filter (fun o => o.role == role)).length ≠ 1) ∨
         (∃ ph, 1 <
            ((c9data.organizers.filter (fun o => o.phone == ph)).map
              Organizer.role).dedup.length))) := by
  intro h
  have hL : (runStressTest c9data).errors.any isErrL = true :=
    h.mpr (Or.inl ⟨.devpost, by decide, by decide⟩)
  have hf : (runStressTest c9data).errors.any isErrL = false := by decide
  rw [hf] at hL
  exact Bool.false_ne_true hL

/-- Claim C9 (amended): `runStressTest` reports a rule L error if and only if
some enumerated organizer role is filled by no organizer at all, or some phone
number appears on more than one organizer entry. -/
theorem c9_ruleL_iff (data : HackathonData) :
    (∃ e ∈ (runStressTest data).errors, isErrL e = true) ↔
      ((∃ role ∈ requiredRoles, role ∉ data.organizers.map Organizer.role) ∨
       (∃ ph, 1 < (data.organizers.filter (fun o => o.phone == ph)).length)) := by
  constructor
  · rintro ⟨e, he, hL⟩
    have he2 : e ∈ stressErrors data := he
    rcases (mem_stressErrors data e).mp he2 with h|h|h|h|h|h|h|h|h|h|h|h|h
    · rcases (mem_errsA data e).mp h with ⟨-, rfl⟩
      simp [isErrL] at hL
    · rcases (mem_errsB data e).mp h with ⟨-, rfl⟩
      simp [isErrL] at hL
    · rcases (mem_errsC data e).mp h with ⟨-, rfl⟩
      simp [isErrL] at hL
    · rcases (mem_errsD data e).mp h with ⟨-, rfl⟩
      simp [isErrL] at hL
    · rcases (mem_errsE data e).mp h with ⟨-, rfl⟩
      simp [isErrL] at hL
    · rcases (mem_errsF data e).mp h with ⟨-, rfl⟩
      simp [isErrL] at hL
    · rcases (mem_errsG data e).mp h with ⟨-, rfl⟩
      simp [isErrL] at hL
    · rcases (mem_errsH data e).mp h with ⟨-, rfl⟩
      simp [isErrL] at hL
    · rcases (mem_errsI data e).mp h with ⟨-, rfl⟩
      simp [isErrL] at hL
    · rcases (mem_errsJ data e).mp h with ⟨-, rfl⟩
      simp [isErrL] at hL
    · rcases (mem_errsK data e).mp h with ⟨-, rfl⟩
      simp [isErrL] at hL
    · rcases (mem_errsLMissing data e).mp h with ⟨role, hr, hnot, rfl⟩
      exact Or.inl ⟨role, hr, hnot⟩
    · rcases (mem_errsLDup data e).mp h with ⟨ph, hcnt, rfl⟩
      exact Or.inr ⟨ph, hcnt⟩
  · rintro (⟨role, hr, hnot⟩ | ⟨ph, hcnt⟩)
    · refine ⟨.errLMissing role, ?_, rfl⟩
      show _ ∈ stressErrors data
      rw [mem_stressErrors]
      have hm : StressError.errLMissing role ∈ errsLMissing data :=
        (mem_errsLMissing data _).mpr ⟨role, hr, hnot, rfl⟩
      tauto
    · refine ⟨.errLDup ph, ?_, rfl⟩
      show _ ∈ stressErrors data
      rw [mem_stressErrors]
      have hm : StressError.errLDup ph ∈ errsLDup data :=
        (mem_errsLDup data _).mpr ⟨ph, hcnt, rfl⟩
      tauto

/-- Claim C4: `runStressTest` passes exactly when its error list is empty, and
each of the twelve rules contributes its error to the list if and only if its
own violation condition holds on the configuration alone, independently of all
other rules, so the error set is a deterministic function of the
configuration and no failing rule suppresses another. -/
theorem c4_validator (data : HackathonData) :
    ((runStressTest data).passed = true ↔ (runStressTest data).errors = []) ∧
    ((∃ q, StressError.errA q ∈ (runStressTest data).errors) ↔
      timePerProject data < 5) ∧
    ((∃ a b, StressError.errB a b ∈ (runStressTest data).errors) ↔
      data.tableCount < projectedProjects data) ∧
    ((∃ q, StressError.errC q ∈ (runStressTest data).errors) ↔
      arrivalToOrientation data < 30) ∧
    ((∃ q, StressError.errD q ∈ (runStressTest data).errors) ↔
      orientationToStart data < 60) ∧
    ((∃ q, StressError.errE q ∈ (runStressTest data).errors) ↔
      (5 < |hardDeadlineToStart data - 60| ∧ hardDeadlineToStart data < 60)) ∧
    ((∃ q, StressError.errF q ∈ (runStressTest data).errors) ↔
      totalJudgingTime data < 90) ∧
    ((∃ a b, StressError.errG a b ∈ (runStressTest data).errors) ↔
      data.tableCount < requiredTables data) ∧
    ((∃ q, StressError.errH q ∈ (runStressTest data).errors) ↔
      softToHard data < 60) ∧
    ((∃ q, StressError.errI q ∈ (runStressTest data).errors) ↔
      judgeEndToClosing data < 60) ∧
    ((∃ q, StressError.errJ q ∈ (runStressTest data).errors) ↔
      closingToVenue data < 60) ∧
    ((∃ q, StressError.errK q ∈ (runStressTest data).errors) ↔
      data.judgesPerProject < 2) ∧
    (∀ role, StressError.errLMissing role ∈ (runStressTest data).errors ↔
      (role ∈ requiredRoles ∧ role ∉ data.organizers.map Organizer.role)) ∧
    (∀ ph, StressError.errLDup ph ∈ (runStressTest data).errors ↔
      1 < (data.organizers.filter (fun o => o.phone == ph)).length) := by
  simp only [runStressTest]
  refine ⟨?_, ?_, ?_, ?_, ?_, ?_, ?_, ?_, ?_, ?_, ?_, ?_, ?_, ?_⟩
  · exact List.isEmpty_iff
  · simp [mem_stressErrors, mem_errsA, mem_errsB, mem_errsC, mem_errsD, mem_errsE,
      mem_errsF, mem_errsG, mem_errsH, mem_errsI, mem_errsJ, mem_errsK,
      mem_errsLMissing, mem_errsLDup]
  · simp [mem_stressErrors, mem_errsA, mem_errsB, mem_errsC, mem_errsD, mem_errsE,
      mem_errsF, mem_errsG, mem_errsH, mem_errsI, mem_errsJ, mem_errsK,
      mem_errsLMissing, mem_errsLDup]
  · simp [mem_stressErrors, mem_errsA, mem_errsB, mem_errsC, mem_errsD, mem_errsE,
      mem_errsF, mem_errsG, mem_errsH, mem_errsI, mem_errsJ, mem_errsK,
      mem_errsLMissing, mem_errsLDup]
  · simp [mem_stressErrors, mem_errsA, mem_errsB, mem_errsC, mem_errsD, mem_errsE,
      mem_errsF, mem_errsG, mem_errsH, mem_errsI, mem_errsJ, mem_errsK,
      mem_errsLMissing, mem_errsLDup]
  · simp [mem_stressErrors, mem_errsA, mem_errsB, mem_errsC, mem_errsD, mem_errsE,
      mem_errsF, mem_errsG, mem_errsH, mem_errsI, mem_errsJ, mem_errsK,
      mem_errsLMissing, mem_errsLDup]
  · simp [mem_stressErrors, mem_errsA, mem_errsB, mem_errsC, mem_errsD, mem_errsE,
      mem_errsF, mem_errsG, mem_errsH, mem_errsI, mem_errsJ, mem_errsK,
      mem_errsLMissing, mem_errsLDup]
  · simp [mem_stressErrors, mem_errsA, mem_errsB, mem_errsC, mem_errsD, mem_errsE,
      mem_errsF, mem_errsG, mem_errsH, mem_errsI, mem_errsJ, mem_errsK,
      mem_errsLMissing, mem_errsLDup]
  · simp [mem_stressErrors, mem_errsA, mem_errsB, mem_errsC, mem_errsD, mem_errsE,
      mem_errsF, mem_errsG, mem_errsH, mem_errsI, mem_errsJ, mem_errsK,
      mem_errsLMissing, mem_errsLDup]
  · simp [mem_stressErrors, mem_errsA, mem_errsB, mem_errsC, mem_errsD, mem_errsE,
      mem_errsF, mem_errsG, mem_errsH, mem_errsI, mem_errsJ, mem_errsK,
      mem_errsLMissing, mem_errsLDup]
  · simp [mem_stressErrors, mem_errsA, mem_errsB, mem_errsC, mem_errsD, mem_errsE,
      mem_errsF, mem_errsG, mem_errsH, mem_errsI, mem_errsJ, mem_errsK,
      mem_errsLMissing, mem_errsLDup]
  · simp [mem_stressErrors, mem_errsA, mem_errsB, mem_errsC, mem_errsD, mem_errsE,
      mem_errsF, mem_errsG, mem_errsH, mem_errsI, mem_errsJ, mem_errsK,
      mem_errsLMissing, mem_errsLDup]
  · intro role
    simp [mem_stressErrors, mem_errsA, mem_errsB, mem_errsC, mem_errsD, mem_errsE,
      mem_errsF, mem_errsG, mem_errsH, mem_errsI, mem_errsJ, mem_errsK,
      mem_errsLMissing, mem_errsLDup]
  · intro ph
    simp [mem_stressErrors, mem_errsA, mem_errsB, mem_errsC, mem_errsD, mem_errsE,
      mem_errsF, mem_errsG, mem_errsH, mem_errsI, mem_errsJ, mem_errsK,
      mem_errsLMissing, mem_errsLDup]

/-- Claim C5: `getProjectStatus` is total and classifies every project by the
spec table: purple when flagged no-show regardless of scores; red when the
project has zero score submissions; yellow when the submission count is at
least one and strictly below the required rounds; green when the count
reaches the required rounds. -/
theorem c5_classifyStatus (project : Project) (scores : List Score) (requiredRounds : Int) :
    (project.noShow = true →
      getProjectStatus project scores requiredRounds = .purple) ∧
    (project.noShow = false →
      (scores.filter (fun s => s.projectId == project.id)).length = 0 →
      getProjectStatus project scores requiredRounds = .red) ∧
    (project.noShow = false →
      1 ≤ (scores.filter (fun s => s.projectId == project.id)).length →
      ((scores.filter (fun s => s.projectId == project.id)).length : Int) < requiredRounds →
      getProjectStatus project scores requiredRounds = .yellow) ∧
    (project.noShow = false →
      1 ≤ (scores.filter (fun s => s.projectId == project.id)).length →
      requiredRounds ≤ ((scores.filter (fun s => s.projectId == project.id)).length : Int) →
      getProjectStatus project scores requiredRounds = .green) := by
  unfold getProjectStatus
  refine ⟨?_, ?_, ?_, ?_⟩
  · intro h
    simp [h]
  · intro h h0
    simp [h, h0]
  · intro h h1 hlt
    have h0 : (scores.filter (fun s => s.projectId == project.id)).length ≠ 0 := by omega
    simp [h, h0, hlt]
  · intro h h1 hge
    have h0 : (scores.filter (fun s => s.projectId == project.id)).length ≠ 0 := by omega
    have hnl : ¬ (((scores.filter (fun s => s.projectId == project.id)).length : Int)
        < requiredRounds) := by omega
    simp [h, h0, hnl]

/-- Witness for claim C5: the red clause applied at a concrete project with
no scores. -/
theorem c5_witness : getProjectStatus c3project [] 5 = .red :=
  (c5_classifyStatus c3project [] 5).2.1 rfl rfl

theorem rawTotalOf_filter_not_mem (criteria : List Criterion) (included : List String)
    (cid : String) (h : included.contains cid = false) :
    ∀ entries, rawTotalOf criteria included entries
      = rawTotalOf criteria included (entries.filter (fun e => !(e.1 == cid))) := by
  intro entries
  induction entries with
  | nil => rfl
  | cons e rest ih =>
    by_cases hcid : e.1 = cid
    · have hcontains : included.contains e.1 = false := by rw [hcid]; exact h
      have h1 : List.filter (fun e2 => !(e2.1 == cid)) (e :: rest)
          = List.filter (fun e2 => !(e2.1 == cid)) rest := by
        simp [List.filter_cons, hcid]
      rw [h1, ← ih]
      show (if included.contains e.1 = true then e.2 * weightOf criteria e.1 else 0)
          + rawTotalOf criteria included rest = rawTotalOf criteria included rest
      rw [hcontains]
      simp
    · have h1 : List.filter (fun e2 => !(e2.1 == cid)) (e :: rest)
          = e :: List.filter (fun e2 => !(e2.1 == cid)) rest := by
        simp [List.filter_cons, hcid]
      rw [h1]
      show _ + rawTotalOf criteria included rest
          = _ + rawTotalOf criteria included (List.filter (fun e2 => !(e2.1 == cid)) rest)
      rw [ih]

theorem mem_includedCriteriaIds_none (criteria : List Criterion) (orgCats : List String)
    (cid : String) :
    cid ∈ includedCriteriaIds criteria orgCats none ↔
      ∃ c ∈ criteria, c.id = cid ∧ orgCats.contains c.name = false := by
  unfold includedCriteriaIds
  rw [List.mem_filterMap]
  constructor
  · rintro ⟨c, hc, hf⟩
    simp only at hf
    split at hf
    · rename_i hcond
      exact ⟨c, hc, Option.some_inj.mp hf, by simpa using hcond⟩
    · cases hf
  · rintro ⟨c, hc, hid, hcond⟩
    refine ⟨c, hc, ?_⟩
    simp only
    rw [if_pos ?_, hid]
    rw [hcond]
    simp

theorem mem_includedCriteriaIds_some (criteria : List Criterion) (orgCats : List String)
    (f cid : String) :
    cid ∈ includedCriteriaIds criteria orgCats (some f) ↔
      ∃ c ∈ criteria, c.id = cid ∧ (orgCats.contains c.name = false ∨ c.name = f) := by
  unfold includedCriteriaIds
  rw [List.mem_filterMap]
  constructor
  · rintro ⟨c, hc, hf⟩
    simp only at hf
    split at hf
    · rename_i hcond
      refine ⟨c, hc, Option.some_inj.mp hf, ?_⟩
      rcases Bool.or_eq_true_iff.mp hcond with hg | hn
      · exact Or.inl (by simpa using hg)
      · exact Or.inr (by simpa using hn)
    · cases hf
  · rintro ⟨c, hc, hid, hcond⟩
    refine ⟨c, hc, ?_⟩
    simp only
    rw [if_pos ?_, hid]
    rcases hcond with hg | hn
    · rw [Bool.or_eq_true_iff]
      left
      rw [hg]
      rfl
    · rw [Bool.or_eq_true_iff]
      right
      simp [hn]

theorem find_by_id_eq (criteria : List Criterion) (c : Criterion)
    (hnd : (criteria.map Criterion.id).Nodup) (hc : c ∈ criteria) :
    criteria.find? (fun d => d.id == c.id) = some c := by
  induction criteria with
  | nil => cases hc
  | cons d rest ih =>
    rw [List.find?_cons]
    by_cases hd : d.id = c.id
    · have : d = c := List.inj_on_of_nodup_map hnd (List.mem_cons_self d rest) hc hd
      simp [hd, this]
    · have hcr : c ∈ rest := by
        rcases List.mem_cons.mp hc with h | h
        · exact absurd (by rw [h]) hd
        · exact h
      have : (d.id == c.id) = false := by simp [hd]
      rw [this]
      exact ih (by simpa using (List.nodup_cons.mp (by simpa using hnd)).2) hcr

theorem weightOf_eq (criteria : List Criterion) (c : Criterion)
    (hnd : (criteria.map Criterion.id).Nodup) (hc : c ∈ criteria) :
    weightOf criteria c.id = c.weight := by
  unfold weightOf
  rw [find_by_id_eq criteria c hnd hc]

theorem addToGroup_entries {β : Type} :
    ∀ (acc : List (String × List β)) (k : String) (e : β) (g : String × List β)
      (x : β), g ∈ addToGroup acc k e → x ∈ g.2 →
      (∃ g2 ∈ acc, x ∈ g2.2) ∨ x = e := by
  intro acc
  induction acc with
  | nil =>
    intro k e g x hg hx
    simp only [addToGroup, List.mem_singleton] at hg
    subst hg
    simp only [List.mem_singleton] at hx
    exact Or.inr hx
  | cons g0 rest ih =>
    intro k e g x hg hx
    simp only [addToGroup] at hg
    split at hg
    · rcases List.mem_cons.mp hg with hg1 | hg1
      · subst hg1
        rcases List.mem_append.mp hx with hx1 | hx1
        · exact Or.inl ⟨g0, List.mem_cons_self g0 rest, hx1⟩
        · simp only [List.mem_singleton] at hx1
          exact Or.inr hx1
      · exact Or.inl ⟨g, List.mem_cons_of_mem g0 hg1, hx⟩
    · rcases List.mem_cons.mp hg with hg1 | hg1
      · refine Or.inl ⟨g, ?_, hx⟩
        rw [hg1]
        exact List.mem_cons_self g0 rest
      · rcases ih k e g x hg1 hx with ⟨g2, hg2, hx2⟩ | hx2
        · exact Or.inl ⟨g2, List.mem_cons_of_mem g0 hg2, hx2⟩
        · exact Or.inr hx2

theorem groupScores_entries_aux (relevant : List Project) (criteria : List Criterion)
    (included : List String) :
    ∀ (scores : List Score) (acc : List (String × List (String × ℚ)))
      (g : String × List (String × ℚ)) (x : String × ℚ),
      g ∈ scores.foldl
        (fun acc s =>
          if relevant.any (fun p => p.id == s.projectId) then
            addToGroup acc s.judgeId (s.projectId, rawTotalOf criteria included s.criteria)
          else acc) acc →
      x ∈ g.2 →
      (∃ g2 ∈ acc, x ∈ g2.2) ∨ (∃ s ∈ scores, x.1 = s.projectId) := by
  intro scores
  induction scores with
  | nil =>
    intro acc g x hg hx
    exact Or.inl ⟨g, hg, hx⟩
  | cons s ss ih =>
    intro acc g x hg hx
    rw [List.foldl_cons] at hg
    rcases ih _ g x hg hx with ⟨g2, hg2, hx2⟩ | ⟨s2, hs2, hx2⟩
    · split at hg2
      · rcases addToGroup_entries acc _ _ g2 x hg2 hx2 with ⟨g3, hg3, hx3⟩ | hx3
        · exact Or.inl ⟨g3, hg3, hx3⟩
        · subst hx3
          exact Or.inr ⟨s, List.mem_cons_self s ss, rfl⟩
      · exact Or.inl ⟨g2, hg2, hx2⟩
    · exact Or.inr ⟨s2, List.mem_cons_of_mem s hs2, hx2⟩

theorem groupScores_entries (relevant : List Project) (criteria : List Criterion)
    (included : List String) (scores : List Score)
    (g : String × List (String × ℚ)) (x : String × ℚ)
    (hg : g ∈ groupScores relevant criteria included scores) (hx : x ∈ g.2) :
    ∃ s ∈ scores, x.1 = s.projectId := by
  rcases groupScores_entries_aux relevant criteria included scores [] g x hg hx with
    ⟨g2, hg2, -⟩ | h
  · cases hg2
  · exact h

theorem lbStep_preserve (sorted : List (String × ℚ)) (st : LbStats)
    (it : String × ℚ) (pid : String) (h : it.1 ≠ pid) :
    (lbStep sorted st it).pts pid = st.pts pid ∧
    (lbStep sorted st it).raws pid = st.raws pid ∧
    (lbStep sorted st it).counts pid = st.counts pid := by
  have hb : (pid == it.1) = false := by
    simp
    intro heq
    exact h heq.symm
  unfold lbStep
  refine ⟨?_, ?_, ?_⟩ <;> simp [hb]

theorem foldl_lbStep_preserve (sorted : List (String × ℚ)) (pid : String) :
    ∀ (l : List (String × ℚ)) (st : LbStats), (∀ x ∈ l, x.1 ≠ pid) →
      ((l.foldl (lbStep sorted) st).pts pid = st.pts pid ∧
       (l.foldl (lbStep sorted) st).raws pid = st.raws pid ∧
       (l.foldl (lbStep sorted) st).counts pid = st.counts pid) := by
  intro l
  induction l with
  | nil => intro st h; exact ⟨rfl, rfl, rfl⟩
  | cons it rest ih =>
    intro st h
    rw [List.foldl_cons]
    have h1 := lbStep_preserve sorted st it pid (h it (List.mem_cons_self it rest))
    have h2 := ih (lbStep sorted st it) (fun x hx => h x (List.mem_cons_of_mem it hx))
    exact ⟨h2.1.trans h1.1, h2.2.1.trans h1.2.1, h2.2.2.trans h1.2.2⟩

theorem applyJudge_preserve (st : LbStats) (entries : List (String × ℚ)) (pid : String)
    (h : ∀ x ∈ entries, x.1 ≠ pid) :
    (applyJudge st entries).pts pid = st.pts pid ∧
    (applyJudge st entries).raws pid = st.raws pid ∧
    (applyJudge st entries).counts pid = st.counts pid := by
  unfold applyJudge
  refine foldl_lbStep_preserve _ pid _ st ?_
  intro x hx
  exact h x ((sortBy_perm (fun a b => decide (b.2 ≤ a.2)) entries).mem_iff.mp hx)

theorem lbStatsOf_zero (projects : List Project) (scores : List Score)
    (criteria : List Criterion) (orgCats : List String) (fc : Option String)
    (pid : String) (h : ∀ s ∈ scores, s.projectId ≠ pid) :
    (lbStatsOf projects scores criteria orgCats fc).pts pid = 0 ∧
    (lbStatsOf projects scores criteria orgCats fc).raws pid = 0 ∧
    (lbStatsOf projects scores criteria orgCats fc).counts pid = 0 := by
  unfold lbStatsOf
  have key : ∀ (groups : List (String × List (String × ℚ))) (st : LbStats),
      (∀ g ∈ groups, ∀ x ∈ g.2, x.1 ≠ pid) →
      ((groups.foldl (fun st g => applyJudge st g.2) st).pts pid = st.pts pid ∧
       (groups.foldl (fun st g => applyJudge st g.2) st).raws pid = st.raws pid ∧
       (groups.foldl (fun st g => applyJudge st g.2) st).counts pid = st.counts pid) := by
    intro groups
    induction groups with
    | nil => intro st hgroups; exact ⟨rfl, rfl, rfl⟩
    | cons g rest ih =>
      intro st hgroups
      rw [List.foldl_cons]
      have h1 := applyJudge_preserve st g.2 pid
        (hgroups g (List.mem_cons_self g rest))
      have h2 := ih (applyJudge st g.2)
        (fun g2 hg2 => hgroups g2 (List.mem_cons_of_mem g hg2))
      exact ⟨h2.1.trans h1.1, h2.2.1.trans h1.2.1, h2.2.2.trans h1.2.2⟩
  refine key _ _ ?_
  intro g hg x hx
  rcases groupScores_entries _ _ _ _ g x hg hx with ⟨s, hs, hxs⟩
  rw [hxs]
  exact h s hs

theorem lbRows_map_id (projects : List Project) (scores : List Score)
    (criteria : List Criterion) (orgCats : List String) (fc : Option String) :
    (lbRows projects scores criteria orgCats fc).map ProjectScoreStats.projectId
      = (relevantProjects projects fc).map Project.id := by
  unfold lbRows
  rw [List.map_map]
  rfl

theorem leaderboard_ids_perm (projects : List Project) (scores : List Score)
    (criteria : List Criterion) (orgCats : List String) (fc : Option String) :
    ((calculateLeaderboard projects scores criteria orgCats fc).map
        ProjectScoreStats.projectId).Perm
      ((relevantProjects projects fc).map Project.id) := by
  unfold calculateLeaderboard
  refine ((sortBy_perm rowLe _).map ProjectScoreStats.projectId).trans ?_
  rw [lbRows_map_id]

/-- Claim C10: every call of `calculateLeaderboard` returns exactly one row
per in-scope project (not flagged no-show and, under a category filter,
tagged with it): the multiset of row project ids equals the multiset of
in-scope project ids, and an in-scope project with no score submissions still
gets a row with `timesJudged = 0`, `rankPoints = 0` and `rawAvg = 0`. -/
theorem c10_rowScope (projects : List Project) (scores : List Score)
    (criteria : List Criterion) (orgCats : List String) (fc : Option String) :
    ((calculateLeaderboard projects scores criteria orgCats fc).map
        ProjectScoreStats.projectId).Perm
      ((relevantProjects projects fc).map Project.id) ∧
    (∀ p ∈ relevantProjects projects fc,
      (∀ s ∈ scores, s.projectId ≠ p.id) →
      ∃ row ∈ calculateLeaderboard projects scores criteria orgCats fc,
        row.projectId = p.id ∧ row.timesJudged = 0 ∧ row.rankPoints = 0 ∧
        row.rawAvg = 0) := by
  constructor
  · exact leaderboard_ids_perm projects scores criteria orgCats fc
  · intro p hp hns
    have hz := lbStatsOf_zero projects scores criteria orgCats fc p.id hns
    have hrowmem : ∃ row ∈ lbRows projects scores criteria orgCats fc,
        row.projectId = p.id ∧
        row.timesJudged = (lbStatsOf projects scores criteria orgCats fc).counts p.id ∧
        row.rankPoints = (lbStatsOf projects scores criteria orgCats fc).pts p.id ∧
        row.rawAvg =
          (if 0 < (lbStatsOf projects scores criteria orgCats fc).counts p.id then
            (lbStatsOf projects scores criteria orgCats fc).raws p.id
              / ((lbStatsOf projects scores criteria orgCats fc).counts p.id : ℚ)
          else 0) := by
      simp only [lbRows]
      exact ⟨_, List.mem_map.mpr ⟨p, hp, rfl⟩, rfl, rfl, rfl, rfl⟩
    rcases hrowmem with ⟨row, hmem, hid, htj, hrp, hra⟩
    refine ⟨row, ?_, hid, ?_, ?_, ?_⟩
    · exact (sortBy_perm rowLe _).mem_iff.mpr hmem
    · rw [htj, hz.2.2]
    · rw [hrp, hz.1]
    · rw [hra, hz.2.2]
      simp

/-- Witness for claim C10: the zero-score clause at one concrete active
project and an empty score list. -/
theorem c10_witness :
    ∃ row ∈ calculateLeaderboard [c3project] [] [] [] none,
      row.projectId = c3project.id ∧ row.timesJudged = 0 ∧ row.rankPoints = 0 ∧
      row.rawAvg = 0 :=
  (c10_rowScope [c3project] [] [] [] none).2 c3project (by decide)
    (fun s hs => absurd hs (List.not_mem_nil s))

/-- Claim C6: tied raw scores within one judge receive the rank of the first
occurrence of that score and hence the same points, and on the concrete
judge stack 9, 6, 6 for projects A, B, C the leaderboard gives A five points,
B and C four points each, and no project three points. -/
theorem c6_tiedRanks :
    (∀ (sorted : List (String × ℚ)) (a b : String × ℚ), a.2 = b.2 →
        judgePoints sorted a = judgePoints sorted b) ∧
    (∃ row ∈ calculateLeaderboard [c6A, c6B, c6C] c6scores [c6crit] [] none,
        row.projectId = "A" ∧ row.rankPoints = 5) ∧
    (∃ row ∈ calculateLeaderboard [c6A, c6B, c6C] c6scores [c6crit] [] none,
        row.projectId = "B" ∧ row.rankPoints = 4) ∧
    (∃ row ∈ calculateLeaderboard [c6A, c6B, c6C] c6scores [c6crit] [] none,
        row.projectId = "C" ∧ row.rankPoints = 4) ∧
    (∀ row ∈ calculateLeaderboard [c6A, c6B, c6C] c6scores [c6crit] [] none,
        row.rankPoints ≠ 3) := by
  refine ⟨?_, by decide, by decide, by decide, by decide⟩
  intro sorted a b h
  unfold judgePoints
  rw [h]

/-- Witness for claim C6: the tie clause applied to two entries with equal
raw scores. -/
theorem c6_witness :
    judgePoints [("x", 5)] ("p", 7) = judgePoints [("x", 5)] ("q", 7) :=
  c6_tiedRanks.1 [("x", (5:ℚ))] ("p", 7) ("q", 7) rfl

/-- Claim C7: with "Sustainability" among the organizer categories and a
criterion of that name, the overall view (no category filter) excludes that
criterion's id from the included set, so its value-times-weight contribution
drops out of every raw total, while the "Sustainability" filter includes the
criterion (its entry contributes exactly value times weight) and only
projects tagged with the category appear in the filtered leaderboard. -/
theorem c7_categoryFilter (criteria : List Criterion) (orgCats : List String)
    (c : Criterion) (hS : "Sustainability" ∈ orgCats) (hc : c ∈ criteria)
    (hname : c.name = "Sustainability")
    (hnd : (criteria.map Criterion.id).Nodup) :
    (c.id ∉ includedCriteriaIds criteria orgCats none) ∧
    (∀ entries, rawTotalOf criteria (includedCriteriaIds criteria orgCats none) entries
        = rawTotalOf criteria (includedCriteriaIds criteria orgCats none)
            (entries.filter (fun e => !(e.1 == c.id)))) ∧
    (c.id ∈ includedCriteriaIds criteria orgCats (some "Sustainability")) ∧
    (∀ (v : ℚ) (rest : List (String × ℚ)),
      rawTotalOf criteria (includedCriteriaIds criteria orgCats (some "Sustainability"))
          ((c.id, v) :: rest)
        = v * c.weight
          + rawTotalOf criteria
              (includedCriteriaIds criteria orgCats (some "Sustainability")) rest) ∧
    (∀ (projects : List Project) (scores : List Score),
      ∀ row ∈ calculateLeaderboard projects scores criteria orgCats (some "Sustainability"),
        ∃ q ∈ projects, q.noShow = false ∧ "Sustainability" ∈ q.categories ∧
          row.projectId = q.id) := by
  have hnotin : c.id ∉ includedCriteriaIds criteria orgCats none := by
    intro hmem
    rcases (mem_includedCriteriaIds_none criteria orgCats c.id).mp hmem with
      ⟨d, hd, hid, hcond⟩
    have hdc : d = c := List.inj_on_of_nodup_map hnd hd hc hid
    rw [hdc, hname] at hcond
    have : "Sustainability" ∉ orgCats := by simpa using hcond
    exact this hS
  have hin : c.id ∈ includedCriteriaIds criteria orgCats (some "Sustainability") :=
    (mem_includedCriteriaIds_some criteria orgCats "Sustainability" c.id).mpr
      ⟨c, hc, rfl, Or.inr hname⟩
  refine ⟨hnotin, ?_, hin, ?_, ?_⟩
  · refine rawTotalOf_filter_not_mem criteria _ c.id ?_
    simpa using hnotin
  · intro v rest
    have hcontains : (includedCriteriaIds criteria orgCats (some "Sustainability")).contains
        c.id = true := by simpa using hin
    show (if (includedCriteriaIds criteria orgCats (some "Sustainability")).contains c.id
          = true then v * weightOf criteria c.id else 0)
        + rawTotalOf criteria (includedCriteriaIds criteria orgCats (some "Sustainability"))
            rest = _
    rw [if_pos hcontains, weightOf_eq criteria c hnd hc]
  · intro projects scores row hrow
    have hmemid : row.projectId ∈
        (calculateLeaderboard projects scores criteria orgCats
          (some "Sustainability")).map ProjectScoreStats.projectId :=
      List.mem_map.mpr ⟨row, hrow, rfl⟩
    have hrel : row.projectId ∈
        (relevantProjects projects (some "Sustainability")).map Project.id :=
      (leaderboard_ids_perm projects scores criteria orgCats
        (some "Sustainability")).mem_iff.mp hmemid
    rcases List.mem_map.mp hrel with ⟨q, hq, hid⟩
    unfold relevantProjects at hq
    simp only at hq
    rcases List.mem_filter.mp hq with ⟨hq1, hq2⟩
    rcases List.mem_filter.mp hq1 with ⟨hq0, hq3⟩
    refine ⟨q, hq0, ?_, ?_, hid.symm⟩
    · simpa using hq3
    · simpa using hq2

/-- Witness for claim C7: the overall-view exclusion applied at a concrete
criteria list with a Sustainability criterion and a general criterion. -/
theorem c7_witness :
    susCrit.id ∉ includedCriteriaIds [susCrit, genCrit] ["Sustainability"] none :=
  (c7_categoryFilter [susCrit, genCrit] ["Sustainability"] susCrit (by decide)
    (by decide) rfl (by decide)).1

theorem scoreCands_map_fst (st : AState) (tableNum : Int) (rand : Nat → ℚ) :
    ∀ (l : List Judge) (k : Nat),
      (scoreCands st tableNum rand l k).map Prod.fst = l := by
  intro l
  induction l with
  | nil => intro k; rfl
  | cons j js ih =>
    intro k
    simp only [scoreCands, List.map_cons]
    rw [ih (k + 1)]

theorem scoreCands_eq_nil_iff (st : AState) (tableNum : Int) (rand : Nat → ℚ)
    (l : List Judge) (k : Nat) :
    scoreCands st tableNum rand l k = [] ↔ l = [] := by
  cases l <;> simp [scoreCands]

theorem pickBest_eq_none (scored : List (Judge × ℚ)) :
    pickBest scored = none ↔ scored = [] := by
  constructor
  · intro h
    unfold pickBest at h
    cases hs : sortBy (fun a b => decide (b.2 ≤ a.2)) scored with
    | nil =>
      have hp := sortBy_perm (fun a b => decide (b.2 ≤ a.2)) scored
      rw [hs] at hp
      exact hp.symm.eq_nil
    | cons b t =>
      rw [hs] at h
      cases h
  · intro h
    subst h
    rfl

theorem pickBest_mem (scored : List (Judge × ℚ)) (j : Judge)
    (h : pickBest scored = some j) : ∃ q ∈ scored, q.1 = j := by
  unfold pickBest at h
  cases hs : sortBy (fun a b => decide (b.2 ≤ a.2)) scored with
  | nil => rw [hs] at h; cases h
  | cons b t =>
    rw [hs] at h
    have hbs : b ∈ scored := by
      refine (sortBy_perm (fun a b => decide (b.2 ≤ a.2)) scored).mem_iff.mp ?_
      rw [hs]
      exact List.mem_cons_self b t
    exact ⟨b, hbs, Option.some_inj.mp h⟩

theorem mem_projJudgeIds (asg : List Assignment) (pid x : String) :
    x ∈ projJudgeIds asg pid ↔ ∃ a ∈ asg, a.projectId = pid ∧ a.judgeId = x := by
  unfold projJudgeIds projAssignments
  simp [List.mem_map, List.mem_filter]
  tauto

theorem mem_candidatesFor (judges : List Judge) (pid : String) (asg : List Assignment)
    (j : Judge) :
    j ∈ candidatesFor judges pid asg ↔ j ∈ judges ∧ j.id ∉ projJudgeIds asg pid := by
  unfold candidatesFor
  rw [List.mem_filter]
  constructor
  · rintro ⟨hj, hcond⟩
    refine ⟨hj, ?_⟩
    intro hmem
    rcases (mem_projJudgeIds asg pid j.id).mp hmem with ⟨a, ha, hap, haj⟩
    have : (asg.any fun a => a.judgeId == j.id && a.projectId == pid) = true := by
      refine List.any_eq_true.mpr ⟨a, ha, ?_⟩
      simp [hap, haj]
    rw [this] at hcond
    cases hcond
  · rintro ⟨hj, hnot⟩
    refine ⟨hj, ?_⟩
    have : (asg.any fun a => a.judgeId == j.id && a.projectId == pid) = false := by
      rw [List.any_eq_false]
      intro a ha hcond
      rcases (Bool.and_eq_true _ _).mp hcond with ⟨h1, h2⟩
      exact hnot ((mem_projJudgeIds asg pid j.id).mpr
        ⟨a, ha, by simpa using h2, by simpa using h1⟩)
    rw [this]
    rfl

theorem candidatesFor_eq_nil_iff (judges : List Judge) (pid : String)
    (asg : List Assignment) :
    candidatesFor judges pid asg = [] ↔ ∀ j ∈ judges, j.id ∈ projJudgeIds asg pid := by
  rw [List.eq_nil_iff_forall_not_mem]
  constructor
  · intro h j hj
    by_contra hnot
    exact h j ((mem_candidatesFor judges pid asg j).mpr ⟨hj, hnot⟩)
  · intro h j hmem
    rcases (mem_candidatesFor judges pid asg j).mp hmem with ⟨hj, hnot⟩
    exact hnot (h j hj)

theorem candidatesFor_ne_nil (judges : List Judge) (pid : String) (asg : List Assignment)
    (hJN : (judges.map Judge.id).Nodup)
    (hlen : (projJudgeIds asg pid).length < judges.length) :
    candidatesFor judges pid asg ≠ [] := by
  intro hnil
  have hall := (candidatesFor_eq_nil_iff judges pid asg).mp hnil
  have hsub : judges.map Judge.id ⊆ projJudgeIds asg pid := by
    intro x hx
    rcases List.mem_map.mp hx with ⟨j, hj, rfl⟩
    exact hall j hj
  have hle := (hJN.subperm hsub).length_le
  rw [List.length_map] at hle
  omega

theorem projJudgeIds_append (l1 l2 : List Assignment) (pid : String) :
    projJudgeIds (l1 ++ l2) pid = projJudgeIds l1 pid ++ projJudgeIds l2 pid := by
  unfold projJudgeIds projAssignments
  rw [List.filter_append, List.map_append]

theorem projJudgeIds_singleton (a : Assignment) (pid : String) :
    projJudgeIds [a] pid = if a.projectId = pid then [a.judgeId] else [] := by
  unfold projJudgeIds projAssignments
  by_cases h : a.projectId = pid <;> simp [h]

theorem projJudgeIds_eq_nil (l : List Assignment) (pid : String)
    (h : ∀ a ∈ l, a.projectId ≠ pid) : projJudgeIds l pid = [] := by
  unfold projJudgeIds projAssignments
  rw [List.filter_eq_nil_iff.mpr ?_]
  · rfl
  · intro a ha
    simp [h a ha]

theorem pairsOf_append (l1 l2 : List Assignment) :
    pairsOf (l1 ++ l2) = pairsOf l1 ++ pairsOf l2 := by
  unfold pairsOf
  rw [List.map_append]

theorem mem_pairsOf (asg : List Assignment) (x y : String) :
    (x, y) ∈ pairsOf asg ↔ x ∈ projJudgeIds asg y := by
  unfold pairsOf
  rw [mem_projJudgeIds, List.mem_map]
  constructor
  · rintro ⟨a, ha, heq⟩
    rcases Prod.mk.injEq .. ▸ heq with h
    exact ⟨a, ha, (Prod.mk.injEq .. ▸ heq.symm).2.symm, (Prod.mk.injEq .. ▸ heq.symm).1.symm⟩
  · rintro ⟨a, ha, hpid, hjid⟩
    exact ⟨a, ha, by rw [hjid, hpid]⟩

theorem assignStep_cases (judges : List Judge) (rand : Nat → ℚ) (now : Nat)
    (pid : String) (tableNum : Int) (st : AState) :
    (candidatesFor judges pid st.asg = [] ∧
      (assignStep judges rand now pid tableNum st).asg = st.asg) ∨
    (∃ j ∈ candidatesFor judges pid st.asg,
      (assignStep judges rand now pid tableNum st).asg
        = st.asg ++ [{ id := mkAssignId now st.asg.length, judgeId := j.id,
                       projectId := pid, status := .pending }]) := by
  cases h : pickBest (scoreCands st tableNum rand (candidatesFor judges pid st.asg)
      st.ctr) with
  | none =>
    left
    have hnil := (pickBest_eq_none _).mp h
    have hc : candidatesFor judges pid st.asg = [] :=
      (scoreCands_eq_nil_iff st tableNum rand _ st.ctr).mp hnil
    refine ⟨hc, ?_⟩
    unfold assignStep
    simp only []
    rw [h]
  | some j =>
    right
    rcases pickBest_mem _ j h with ⟨q, hq, hq1⟩
    have hj : j ∈ candidatesFor judges pid st.asg := by
      have hmem : q.1 ∈ (scoreCands st tableNum rand (candidatesFor judges pid st.asg)
          st.ctr).map Prod.fst := List.mem_map.mpr ⟨q, hq, rfl⟩
      rw [scoreCands_map_fst] at hmem
      rw [hq1] at hmem
      exact hmem
    refine ⟨j, hj, ?_⟩
    unfold assignStep
    simp only []
    rw [h]

theorem assignStep_extend (judges : List Judge) (rand : Nat → ℚ) (now : Nat)
    (pid : String) (tableNum : Int) (st : AState) :
    ∃ tail, (assignStep judges rand now pid tableNum st).asg = st.asg ++ tail ∧
      ∀ a ∈ tail, a.projectId = pid := by
  rcases assignStep_cases judges rand now pid tableNum st with ⟨-, h⟩ | ⟨j, -, h⟩
  · exact ⟨[], by simp [h], by simp⟩
  · refine ⟨_, h, ?_⟩
    intro a ha
    simp only [List.mem_singleton] at ha
    rw [ha]

theorem assignRounds_extend (judges : List Judge) (rand : Nat → ℚ) (now : Nat)
    (pid : String) (tableNum : Int) :
    ∀ (n : Nat) (st : AState),
      ∃ tail, (assignRounds judges rand now pid tableNum n st).asg = st.asg ++ tail ∧
        ∀ a ∈ tail, a.projectId = pid := by
  intro n
  induction n with
  | zero => intro st; exact ⟨[], by simp [assignRounds], by simp⟩
  | succ n ih =>
    intro st
    rcases assignStep_extend judges rand now pid tableNum st with ⟨t1, h1, hp1⟩
    rcases ih (assignStep judges rand now pid tableNum st) with ⟨t2, h2, hp2⟩
    refine ⟨t1 ++ t2, ?_, ?_⟩
    · show (assignRounds judges rand now pid tableNum n
          (assignStep judges rand now pid tableNum st)).asg = _
      rw [h2, h1, List.append_assoc]
    · intro a ha
      rcases List.mem_append.mp ha with h | h
      · exact hp1 a h
      · exact hp2 a h

theorem assignFold_extend (judges : List Judge) (rand : Nat → ℚ) (now : Nat)
    (rounds : Nat) :
    ∀ (ps : List Project) (st : AState),
      ∃ tail,
        (ps.foldl (fun st p =>
            assignRounds judges rand now p.id (tableNumOf p) rounds st) st).asg
          = st.asg ++ tail ∧
        ∀ a ∈ tail, ∃ p ∈ ps, a.projectId = p.id := by
  intro ps
  induction ps with
  | nil => intro st; exact ⟨[], by simp, by simp⟩
  | cons p qs ih =>
    intro st
    rcases assignRounds_extend judges rand now p.id (tableNumOf p) rounds st with
      ⟨t1, h1, hp1⟩
    rcases ih (assignRounds judges rand now p.id (tableNumOf p) rounds st) with
      ⟨t2, h2, hp2⟩
    refine ⟨t1 ++ t2, ?_, ?_⟩
    · rw [List.foldl_cons, h2, h1, List.append_assoc]
    · intro a ha
      rcases List.mem_append.mp ha with h | h
      · exact ⟨p, List.mem_cons_self p qs, hp1 a h⟩
      · rcases hp2 a h with ⟨q, hq, hqa⟩
        exact ⟨q, List.mem_cons_of_mem p hq, hqa⟩

theorem projJudgeIds_preserved (l tail : List Assignment) (pid q : String) (hq : q ≠ pid)
    (htail : ∀ a ∈ tail, a.projectId = pid) :
    projJudgeIds (l ++ tail) q = projJudgeIds l q := by
  rw [projJudgeIds_append, projJudgeIds_eq_nil tail q ?_, List.append_nil]
  intro a ha
  rw [htail a ha]
  exact fun h => hq h.symm

theorem assignStep_spec (judges : List Judge) (rand : Nat → ℚ) (now : Nat)
    (pid : String) (tableNum : Int) (st : AState)
    (hJN : (judges.map Judge.id).Nodup)
    (hpairs : (pairsOf st.asg).Nodup)
    (hnd : (projJudgeIds st.asg pid).Nodup)
    (hsub : projJudgeIds st.asg pid ⊆ judges.map Judge.id) :
    (pairsOf (assignStep judges rand now pid tableNum st).asg).Nodup ∧
    (projJudgeIds (assignStep judges rand now pid tableNum st).asg pid).Nodup ∧
    projJudgeIds (assignStep judges rand now pid tableNum st).asg pid
      ⊆ judges.map Judge.id ∧
    (projJudgeIds (assignStep judges rand now pid tableNum st).asg pid).length
      = min ((projJudgeIds st.asg pid).length + 1) judges.length := by
  have hLJ : (projJudgeIds st.asg pid).length ≤ judges.length := by
    have h := (hnd.subperm hsub).length_le
    rw [List.length_map] at h
    exact h
  rcases assignStep_cases judges rand now pid tableNum st with ⟨hc, heq⟩ | ⟨j, hj, heq⟩
  · have hall := (candidatesFor_eq_nil_iff judges pid st.asg).mp hc
    have hsub2 : judges.map Judge.id ⊆ projJudgeIds st.asg pid := by
      intro x hx
      rcases List.mem_map.mp hx with ⟨j, hjj, rfl⟩
      exact hall j hjj
    have hge := (hJN.subperm hsub2).length_le
    rw [List.length_map] at hge
    rw [heq]
    exact ⟨hpairs, hnd, hsub, by omega⟩
  · rcases (mem_candidatesFor judges pid st.asg j).mp hj with ⟨hjmem, hjnot⟩
    have hids : projJudgeIds (assignStep judges rand now pid tableNum st).asg pid
        = projJudgeIds st.asg pid ++ [j.id] := by
      rw [heq, projJudgeIds_append, projJudgeIds_singleton]
      simp
    have hprs : pairsOf (assignStep judges rand now pid tableNum st).asg
        = pairsOf st.asg ++ [(j.id, pid)] := by
      rw [heq, pairsOf_append]
      rfl
    have hnd2 : (projJudgeIds st.asg pid ++ [j.id]).Nodup := by
      rw [List.nodup_append]
      refine ⟨hnd, List.nodup_singleton _, ?_⟩
      intro x hx hx2
      simp only [List.mem_singleton] at hx2
      subst hx2
      exact hjnot hx
    have hsub2 : (projJudgeIds st.asg pid ++ [j.id]) ⊆ judges.map Judge.id := by
      intro x hx
      rcases List.mem_append.mp hx with hx | hx
      · exact hsub hx
      · simp only [List.mem_singleton] at hx
        subst hx
        exact List.mem_map.mpr ⟨j, hjmem, rfl⟩
    have hlen2 : (projJudgeIds st.asg pid).length + 1 ≤ judges.length := by
      have h := (hnd2.subperm hsub2).length_le
      rw [List.length_map, List.length_append] at h
      simpa using h
    refine ⟨?_, ?_, ?_, ?_⟩
    · rw [hprs, List.nodup_append]
      refine ⟨hpairs, List.nodup_singleton _, ?_⟩
      intro x hx hx2
      simp only [List.mem_singleton] at hx2
      subst hx2
      exact hjnot ((mem_pairsOf st.asg j.id pid).mp hx)
    · rw [hids]
      exact hnd2
    · rw [hids]
      exact hsub2
    · rw [hids, List.length_append]
      simp only [List.length_singleton]
      omega

theorem assignRounds_spec (judges : List Judge) (rand : Nat → ℚ) (now : Nat)
    (pid : String) (tableNum : Int) (hJN : (judges.map Judge.id).Nodup) :
    ∀ (n : Nat) (st : AState),
      (pairsOf st.asg).Nodup →
      (projJudgeIds st.asg pid).Nodup →
      projJudgeIds st.asg pid ⊆ judges.map Judge.id →
      ((pairsOf (assignRounds judges rand now pid tableNum n st).asg).Nodup ∧
       (projJudgeIds (assignRounds judges rand now pid tableNum n st).asg pid).Nodup ∧
       projJudgeIds (assignRounds judges rand now pid tableNum n st).asg pid
         ⊆ judges.map Judge.id ∧
       (projJudgeIds (assignRounds judges rand now pid tableNum n st).asg pid).length
         = min ((projJudgeIds st.asg pid).length + n) judges.length) := by
  intro n
  induction n with
  | zero =>
    intro st h1 h2 h3
    have hLJ : (projJudgeIds st.asg pid).length ≤ judges.length := by
      have h := (h2.subperm h3).length_le
      rw [List.length_map] at h
      exact h
    exact ⟨h1, h2, h3, by simp [assignRounds]; omega⟩
  | succ n ih =>
    intro st h1 h2 h3
    have hLJ : (projJudgeIds st.asg pid).length ≤ judges.length := by
      have h := (h2.subperm h3).length_le
      rw [List.length_map] at h
      exact h
    have hstep := assignStep_spec judges rand now pid tableNum st hJN h1 h2 h3
    have hih := ih (assignStep judges rand now pid tableNum st)
      hstep.1 hstep.2.1 hstep.2.2.1
    simp only [assignRounds]
    refine ⟨hih.1, hih.2.1, hih.2.2.1, ?_⟩
    rw [hih.2.2.2, hstep.2.2.2]
    omega

theorem assignFold_spec (judges : List Judge) (rand : Nat → ℚ) (now : Nat)
    (rounds : Nat) (hJN : (judges.map Judge.id).Nodup) :
    ∀ (ps : List Project) (st : AState),
      (ps.map Project.id).Nodup →
      (pairsOf st.asg).Nodup →
      (∀ p ∈ ps, projJudgeIds st.asg p.id = []) →
      ((pairsOf (ps.foldl (fun st p =>
          assignRounds judges rand now p.id (tableNumOf p) rounds st) st).asg).Nodup ∧
       ∀ p ∈ ps,
         (projJudgeIds (ps.foldl (fun st p =>
             assignRounds judges rand now p.id (tableNumOf p) rounds st) st).asg
           p.id).Nodup ∧
         projJudgeIds (ps.foldl (fun st p =>
             assignRounds judges rand now p.id (tableNumOf p) rounds st) st).asg p.id
           ⊆ judges.map Judge.id ∧
         (projJudgeIds (ps.foldl (fun st p =>
             assignRounds judges rand now p.id (tableNumOf p) rounds st) st).asg
           p.id).length = min rounds judges.length) := by
  intro ps
  induction ps with
  | nil =>
    intro st h1 h2 h3
    exact ⟨h2, fun p hp => absurd hp (List.not_mem_nil p)⟩
  | cons p qs ih =>
    intro st hnods hpairs hfresh
    have hfp : projJudgeIds st.asg p.id = [] := hfresh p (List.mem_cons_self p qs)
    have hspec := assignRounds_spec judges rand now p.id (tableNumOf p) hJN rounds st
      hpairs (by rw [hfp]; exact List.nodup_nil) (by rw [hfp]; intro x hx; cases hx)
    have hqnodup : (qs.map Project.id).Nodup :=
      (List.nodup_cons.mp (by simpa using hnods)).2
    have hpnotin : p.id ∉ qs.map Project.id :=
      (List.nodup_cons.mp (by simpa using hnods)).1
    rcases assignRounds_extend judges rand now p.id (tableNumOf p) rounds st with
      ⟨t1, ht1, hp1⟩
    have hfresh1 : ∀ q ∈ qs,
        projJudgeIds (assignRounds judges rand now p.id (tableNumOf p) rounds st).asg
          q.id = [] := by
      intro q hq
      have hqne : q.id ≠ p.id := by
        intro h
        exact hpnotin (h ▸ List.mem_map.mpr ⟨q, hq, rfl⟩)
      rw [ht1, projJudgeIds_preserved st.asg t1 p.id q.id hqne hp1]
      exact hfresh q (List.mem_cons_of_mem p hq)
    have hih := ih (assignRounds judges rand now p.id (tableNumOf p) rounds st)
      hqnodup hspec.1 hfresh1
    rw [List.foldl_cons]
    refine ⟨hih.1, ?_⟩
    intro r hr
    rcases List.mem_cons.mp hr with hr1 | hr1
    · subst hr1
      rcases assignFold_extend judges rand now rounds qs
        (assignRounds judges rand now r.id (tableNumOf r) rounds st) with ⟨t2, ht2, hp2⟩
      have hpres : projJudgeIds
          (qs.foldl (fun st p =>
              assignRounds judges rand now p.id (tableNumOf p) rounds st)
            (assignRounds judges rand now r.id (tableNumOf r) rounds st)).asg r.id
          = projJudgeIds
              (assignRounds judges rand now r.id (tableNumOf r) rounds st).asg r.id := by
        rw [ht2, projJudgeIds_append, projJudgeIds_eq_nil t2 _ ?_, List.append_nil]
        intro a ha
        rcases hp2 a ha with ⟨q, hq, hqa⟩
        rw [hqa]
        intro hcontra
        exact hpnotin (hcontra ▸ List.mem_map.mpr ⟨q, hq, rfl⟩)
      have h4 := hspec.2.2.2
      rw [hfp] at h4
      refine ⟨by rw [hpres]; exact hspec.2.1, ?_, ?_⟩
      · rw [hpres]
        exact hspec.2.2.1
      · rw [hpres, h4]
        simp
    · exact hih.2 r hr1

theorem mem_relevantProjects (projects : List Project) (fc : Option String) (q : Project)
    (hq : q ∈ relevantProjects projects fc) : q ∈ projects ∧ q.noShow = false := by
  cases fc with
  | none =>
    unfold relevantProjects at hq
    simp only [] at hq
    rcases List.mem_filter.mp hq with ⟨h1, h2⟩
    exact ⟨h1, by simpa using h2⟩
  | some f =>
    unfold relevantProjects at hq
    simp only [] at hq
    rcases List.mem_filter.mp hq with ⟨h1, -⟩
    rcases List.mem_filter.mp h1 with ⟨h0, h2⟩
    exact ⟨h0, by simpa using h2⟩

theorem plan_projects (judges : List Judge) (projects : List Project) (n : Nat)
    (rand : Nat → ℚ) (now : Nat) :
    ∀ a ∈ generateAssignments judges projects n rand now,
      ∃ q ∈ projects, q.noShow = false ∧ a.projectId = q.id := by
  intro a ha
  unfold generateAssignments at ha
  split at ha
  · cases ha
  · split at ha
    · cases ha
    · simp only [] at ha
      rcases assignFold_extend judges rand now n
          (sortBy projLe (projects.filter fun p => !p.noShow))
          { asg := [], load := fun _ => 0, lastT := fun _ => -999, ctr := 0 } with
        ⟨tail, ht, hpmem⟩
      rw [ht] at ha
      rcases hpmem a (by simpa using ha) with ⟨p, hps, hpa⟩
      have hpf : p ∈ projects.filter fun p => !p.noShow :=
        (sortBy_perm projLe _).mem_iff.mp hps
      rcases List.mem_filter.mp hpf with ⟨h1, h2⟩
      exact ⟨p, h1, by simpa using h2, hpa⟩

/-- Claim C1: for every judge list and project list with well-formed (pairwise
distinct) ids, every plan of the assignment engine, under any outcome of the
random jitter stream, repeats no (judgeId, projectId) pair, and when at least
`n` judges exist every active project receives exactly `n` assignments. -/
theorem c1_planInvariants (judges : List Judge) (projects : List Project) (n : Nat)
    (rand : Nat → ℚ) (now : Nat)
    (hJN : (judges.map Judge.id).Nodup)
    (hPN : ((projects.filter fun p => !p.noShow).map Project.id).Nodup) :
    ((generateAssignments judges projects n rand now).map
        (fun a => (a.judgeId, a.projectId))).Nodup ∧
    (n ≤ judges.length →
      ∀ p ∈ projects, p.noShow = false →
        ((generateAssignments judges projects n rand now).filter
            (fun a => a.projectId == p.id)).length = n) := by
  unfold generateAssignments
  split
  · rename_i h
    constructor
    · simp
    · intro hn p hp hns
      have hj0 : judges.length = 0 := by rw [List.isEmpty_iff.mp h]; rfl
      have hn0 : n = 0 := by omega
      subst hn0
      simp
  · split
    · rename_i h1 h2
      constructor
      · simp
      · intro hn p hp hns
        exfalso
        have hpf : p ∈ projects.filter fun p => !p.noShow :=
          List.mem_filter.mpr ⟨hp, by simp [hns]⟩
        rw [List.isEmpty_iff.mp h2] at hpf
        cases hpf
    · simp only []
      have hsortnodup :
          ((sortBy projLe (projects.filter fun p => !p.noShow)).map Project.id).Nodup :=
        ((sortBy_perm projLe (projects.filter fun p => !p.noShow)).map
          Project.id).nodup_iff.mpr hPN
      have hspec := assignFold_spec judges rand now n hJN
        (sortBy projLe (projects.filter fun p => !p.noShow))
        { asg := [], load := fun _ => 0, lastT := fun _ => -999, ctr := 0 }
        hsortnodup List.nodup_nil (fun p _ => rfl)
      constructor
      · exact hspec.1
      · intro hn p hp hns
        have hpf : p ∈ projects.filter fun p => !p.noShow :=
          List.mem_filter.mpr ⟨hp, by simp [hns]⟩
        have hps : p ∈ sortBy projLe (projects.filter fun p => !p.noShow) :=
          (sortBy_perm projLe _).mem_iff.mpr hpf
        have h3 := (hspec.2 p hps).2.2
        have hlen : ∀ (l : List Assignment),
            ((l.filter fun a => a.projectId == p.id).map Assignment.judgeId).length
              = (l.filter fun a => a.projectId == p.id).length :=
          fun l => List.length_map _ _
        show ((_ : List Assignment).filter fun a => a.projectId == p.id).length = n
        rw [← hlen]
        rw [show (((_ : List Assignment).filter fun a => a.projectId == p.id).map
            Assignment.judgeId) = projJudgeIds _ p.id from rfl]
        rw [h3]
        exact Nat.min_eq_left hn

/-- Witness for claim C1 at one judge, one active project and one round. -/
theorem c1_witness :
    ((generateAssignments [c3judge] [c3project] 1 (fun _ => 0) 0).map
        (fun a => (a.judgeId, a.projectId))).Nodup ∧
    (1 ≤ ([c3judge] : List Judge).length →
      ∀ p ∈ [c3project], p.noShow = false →
        ((generateAssignments [c3judge] [c3project] 1 (fun _ => 0) 0).filter
            (fun a => a.projectId == p.id)).length = 1) :=
  c1_planInvariants [c3judge] [c3project] 1 (fun _ => 0) 0 (by decide) (by decide)

/-- Claim C3 counterexample: one judge, one active project, two requested
rounds; the engine produces a single assignment for the project instead of
the two the claim demands — it never repeats a judge on the same project,
the extra round is simply skipped. -/
theorem c3_counterexample :
    ([c3judge] : List Judge) ≠ [] ∧ ([c3judge] : List Judge).length < 2 ∧
    ((generateAssignments [c3judge] [c3project] 2 (fun _ => 0) 0).filter
        (fun a => a.projectId == c3project.id)).length = 1 :=
  ⟨by decide, by decide, by decide⟩

/-- Claim C3 (amended): with well-formed ids, a non-empty judge list and more
requested rounds than judges, every active project is matched with every
judge exactly once — the judge ids assigned to it are a permutation of the
whole judge id list — and no repetition occurs, so the project receives
exactly as many assignments as there are judges. -/
theorem c3_roundsOverflow (judges : List Judge) (projects : List Project) (n : Nat)
    (rand : Nat → ℚ) (now : Nat)
    (hJN : (judges.map Judge.id).Nodup)
    (hPN : ((projects.filter fun p => !p.noShow).map Project.id).Nodup)
    (hne : judges ≠ [])
    (hn : judges.length ≤ n) :
    ∀ p ∈ projects, p.noShow = false →
      (((generateAssignments judges projects n rand now).filter
          (fun a => a.projectId == p.id)).map Assignment.judgeId).Perm
        (judges.map Judge.id) := by
  intro p hp hns
  unfold generateAssignments
  split
  · rename_i h
    exact absurd (List.isEmpty_iff.mp h) hne
  · split
    · rename_i h1 h2
      exfalso
      have hpf : p ∈ projects.filter fun p => !p.noShow :=
        List.mem_filter.mpr ⟨hp, by simp [hns]⟩
      rw [List.isEmpty_iff.mp h2] at hpf
      cases hpf
    · simp only []
      have hsortnodup :
          ((sortBy projLe (projects.filter fun p => !p.noShow)).map Project.id).Nodup :=
        ((sortBy_perm projLe (projects.filter fun p => !p.noShow)).map
          Project.id).nodup_iff.mpr hPN
      have hspec := assignFold_spec judges rand now n hJN
        (sortBy projLe (projects.filter fun p => !p.noShow))
        { asg := [], load := fun _ => 0, lastT := fun _ => -999, ctr := 0 }
        hsortnodup List.nodup_nil (fun p _ => rfl)
      have hpf : p ∈ projects.filter fun p => !p.noShow :=
        List.mem_filter.mpr ⟨hp, by simp [hns]⟩
      have hps : p ∈ sortBy projLe (projects.filter fun p => !p.noShow) :=
        (sortBy_perm projLe _).mem_iff.mpr hpf
      rcases hspec.2 p hps with ⟨hnd, hsub, hcnt⟩
      have hmin : min n judges.length = judges.length := Nat.min_eq_right hn
      rw [hmin] at hcnt
      show (projJudgeIds _ p.id).Perm (judges.map Judge.id)
      refine (hnd.subperm hsub).perm_of_length_le ?_
      rw [List.length_map, hcnt]

/-- Witness for claim C3 amended form: one judge, one project, two rounds. -/
theorem c3_witness :
    (((generateAssignments [c3judge] [c3project] 2 (fun _ => 0) 0).filter
        (fun a => a.projectId == c3project.id)).map Assignment.judgeId).Perm
      ([c3judge].map Judge.id) :=
  c3_roundsOverflow [c3judge] [c3project] 2 (fun _ => 0) 0 (by decide) (by decide)
    (by decide) (by decide) c3project (by decide) rfl

/-- Claim C8: a project flagged no-show, whose id no other project carries,
appears in no row of the leaderboard and in no assignment of any generated
plan, under every score set, criteria list, category filter, judge list,
round count and jitter outcome. -/
theorem c8_noShowExcluded (projects : List Project) (scores : List Score)
    (criteria : List Criterion) (orgCats : List String) (fc : Option String)
    (judges : List Judge) (n : Nat) (rand : Nat → ℚ) (now : Nat) (p : Project)
    (hp : p ∈ projects) (hns : p.noShow = true)
    (huniq : ∀ q ∈ projects, q.id = p.id → q = p) :
    (∀ row ∈ calculateLeaderboard projects scores criteria orgCats fc,
        row.projectId ≠ p.id) ∧
    (∀ a ∈ generateAssignments judges projects n rand now, a.projectId ≠ p.id) := by
  constructor
  · intro row hrow heq
    have hmem : row.projectId ∈ (relevantProjects projects fc).map Project.id :=
      (leaderboard_ids_perm projects scores criteria orgCats fc).mem_iff.mp
        (List.mem_map.mpr ⟨row, hrow, rfl⟩)
    rcases List.mem_map.mp hmem with ⟨q, hq, hidq⟩
    have hqp := mem_relevantProjects projects fc q hq
    have hqid : q.id = p.id := by rw [hidq, heq]
    have hqeq : q = p := huniq q hqp.1 hqid
    have hf : p.noShow = false := hqeq ▸ hqp.2
    rw [hns] at hf
    cases hf
  · intro a ha heq
    rcases plan_projects judges projects n rand now a ha with ⟨q, hq, hqns, hqid⟩
    have hqeq : q = p := huniq q hq (by rw [← hqid]; exact heq)
    have hf : p.noShow = false := hqeq ▸ hqns
    rw [hns] at hf
    cases hf

/-- Witness for claim C8 at a concrete roster with one active project and one
flagged no-show project. -/
theorem c8_witness :
    (∀ row ∈ calculateLeaderboard [c3project, c8noshow] [] [] [] none,
        row.projectId ≠ c8noshow.id) ∧
    (∀ a ∈ generateAssignments [c3judge] [c3project, c8noshow] 1 (fun _ => 0) 0,
        a.projectId ≠ c8noshow.id) :=
  c8_noShowExcluded [c3project, c8noshow] [] [] [] none [c3judge] 1 (fun _ => 0) 0
    c8noshow (by decide) rfl (by decide)
